import Mathlib

/-!
# cpp-http-server: a shallow embedding of the request parser, the response
builder and the route table, with the properties proved about them

Conventions of the embedding.

* A `std::string` is a `List Char`; every `Char` stands for one C++ `char`.
* `size_t` values are natural numbers below `2 ^ 64`; `std::string::npos` is
  `2 ^ 64 - 1` and arithmetic on positions is reduced modulo `2 ^ 64`.
* A `std::map<std::string, std::string>` is the list of its entries in
  iteration order, strictly ascending in the key for `std::less<std::string>`.
* An `std::istringstream` that is only read with `std::getline` is the list of
  the lines those calls return before the first call that fails.
* Reading `back()` of an empty string is undefined behaviour; a function that
  can reach it returns `Option`, with `none` for that case.
-/

namespace HttpServer

/-! ## Strings -/

/-- A `std::string`: the sequence of its characters. -/
abbrev Str := List Char

/-- A string literal of the source as a `Str`. -/
def lit (s : String) : Str := s.data

/-- The modulus of `size_t` arithmetic (a 64-bit platform). -/
def size_mod : Nat := 18446744073709551616

/-- `std::string::npos`, the largest `size_t`. -/
def npos : Nat := 18446744073709551615

/-- `std::string::substr(pos, n)`: the characters from `pos` on, at most `n` of
them. Every call in the source has `pos` at most the length, where the C++
function does not throw. -/
def substr (s : Str) (pos n : Nat) : Str := (s.drop pos).take n

/-- `std::string::substr(pos, n)` with its range check: the characters from
`pos` on, at most `n` of them; `none` when `pos` is beyond the length, where the
C++ function throws `std::out_of_range`. -/
def substr_checked (s : Str) (pos n : Nat) : Option Str :=
  if pos ≤ s.length then some (substr s pos n) else none

/-- `std::string::back()`: the last character; `none` for the empty string,
where the C++ function reads out of range. -/
def back (s : Str) : Option Char := s.getLast?

/-- `std::string::erase(pos, n)`: removes at most `n` characters from `pos` on.
Every call in the source has `pos` at most the length. -/
def erase (s : Str) (pos n : Nat) : Str := s.take pos ++ (s.drop pos).drop n

/-- The index of the first element satisfying `p`, counted from `i`. -/
def index_from (p : Char → Bool) : Str → Nat → Option Nat
  | [], _ => none
  | c :: cs, i => if p c then some i else index_from p cs (i + 1)

/-- The index of the last element satisfying `p`, counted from `i`. -/
def last_index_from (p : Char → Bool) : Str → Nat → Option Nat
  | [], _ => none
  | c :: cs, i =>
    match last_index_from p cs (i + 1) with
    | some j => some j
    | none => if p c then some i else none

/-- A position result as a `size_t`: `npos` when there is none. -/
def pos_result : Option Nat → Nat
  | some i => i % size_mod
  | none => npos

/-- `std::string::find(char)`: the first position of `c`, or `npos`. -/
def find_char (s : Str) (c : Char) : Nat :=
  pos_result (index_from (fun x => x == c) s 0)

/-- `std::string::find_first_not_of(chars)`. -/
def find_first_not_of (s : Str) (chars : Str) : Nat :=
  pos_result (index_from (fun x => !chars.contains x) s 0)

/-- `std::string::find_last_not_of(chars)`. -/
def find_last_not_of (s : Str) (chars : Str) : Nat :=
  pos_result (last_index_from (fun x => !chars.contains x) s 0)

/-- The first position at which `needle` occurs in the string, counted from `i`. -/
def index_of_sub (needle : Str) : Str → Nat → Option Nat
  | [], i => if needle = [] then some i else none
  | c :: cs, i =>
    if needle.isPrefixOf (c :: cs) then some i else index_of_sub needle cs (i + 1)

/-- `std::string::find(const char*)`: the first position of `needle`, or `npos`. -/
def find_str (s : Str) (needle : Str) : Nat :=
  pos_result (index_of_sub needle s 0)

/-- `std::to_string(int)` and `std::to_string(long)`: the decimal digits, with a
minus sign for a negative number. -/
def to_string_int : Int → Str
  | Int.ofNat n => Nat.toDigits 10 n
  | Int.negSucc n => '-' :: Nat.toDigits 10 (n + 1)

/-- The order of `std::string::operator<`: lexicographic, characters compared by
their code. -/
def str_lt : Str → Str → Bool
  | [], [] => false
  | [], _ :: _ => true
  | _ :: _, [] => false
  | a :: as, b :: bs =>
    if a.toNat < b.toNat then true
    else if b.toNat < a.toNat then false
    else str_lt as bs

/-! ## Ordered maps -/

/-- The insertion of `std::map::operator[]` followed by an assignment, on the
entries in iteration order: a new key goes to its place in the order, an
existing key keeps its place and gets the new value. -/
def insert_entry (k v : Str) : List (Str × Str) → List (Str × Str)
  | [] => [(k, v)]
  | e :: rest =>
    if str_lt k e.1 then (k, v) :: e :: rest
    else if str_lt e.1 k then e :: insert_entry k v rest
    else (e.1, v) :: rest

theorem str_lt_trans : ∀ (a b c : Str), str_lt a b = true → str_lt b c = true →
    str_lt a c = true
  | [], [], _, h, _ => by simp [str_lt] at h
  | [], _ :: _, [], _, h => by simp [str_lt] at h
  | [], _ :: _, _ :: _, _, _ => by simp [str_lt]
  | _ :: _, [], _, h, _ => by simp [str_lt] at h
  | _ :: _, _ :: _, [], _, h => by simp [str_lt] at h
  | a :: as, b :: bs, c :: cs, h1, h2 => by
    have ih := str_lt_trans as bs cs
    simp only [str_lt] at h1 h2 ⊢
    split_ifs at h1 h2 ⊢ <;> first | rfl | omega | exact ih h1 h2

theorem insert_entry_keys (k v : Str) (l : List (Str × Str)) (e : Str × Str)
    (he : e ∈ insert_entry k v l) : e.1 = k ∨ ∃ e' ∈ l, e'.1 = e.1 := by
  induction l with
  | nil =>
    simp only [insert_entry, List.mem_singleton] at he
    exact Or.inl (by rw [he])
  | cons x rest ih =>
    simp only [insert_entry] at he
    split_ifs at he
    · rcases List.mem_cons.1 he with h | h
      · exact Or.inl (by rw [h])
      · exact Or.inr ⟨e, h, rfl⟩
    · rcases List.mem_cons.1 he with h | h
      · exact Or.inr ⟨x, List.mem_cons_self _ _, by rw [h]⟩
      · rcases ih h with h1 | ⟨e', h1, h2⟩
        · exact Or.inl h1
        · exact Or.inr ⟨e', List.mem_cons_of_mem _ h1, h2⟩
    · rcases List.mem_cons.1 he with h | h
      · exact Or.inr ⟨x, List.mem_cons_self _ _, by rw [h]⟩
      · exact Or.inr ⟨e, List.mem_cons_of_mem _ h, rfl⟩

theorem insert_entry_ordered (k v : Str) (l : List (Str × Str))
    (h : l.Pairwise (fun a b => str_lt a.1 b.1 = true)) :
    (insert_entry k v l).Pairwise (fun a b => str_lt a.1 b.1 = true) := by
  induction l with
  | nil => simp [insert_entry]
  | cons x rest ih =>
    rw [List.pairwise_cons] at h
    simp only [insert_entry]
    split_ifs with h1 h2
    · refine List.pairwise_cons.2 ⟨?_, List.pairwise_cons.2 h⟩
      intro e he
      rcases List.mem_cons.1 he with he | he
      · rw [he]; exact h1
      · exact str_lt_trans _ _ _ h1 (h.1 e he)
    · refine List.pairwise_cons.2 ⟨?_, ih h.2⟩
      intro e he
      rcases insert_entry_keys k v rest e he with hk | ⟨e', he', hk⟩
      · rw [hk]; exact h2
      · rw [← hk]; exact h.1 e' he'
    · exact List.pairwise_cons.2 ⟨h.1, h.2⟩

/-- A `std::map<std::string, std::string>`: its entries in iteration order,
strictly ascending in the key. -/
structure StrMap where
  entries : List (Str × Str)
  ordered : entries.Pairwise (fun a b => str_lt a.1 b.1 = true)
deriving DecidableEq

namespace StrMap

/-- The empty map. -/
def empty : StrMap := ⟨[], List.Pairwise.nil⟩

/-- The assignment `m[k] = v`. -/
def set (m : StrMap) (k v : Str) : StrMap :=
  ⟨insert_entry k v m.entries, insert_entry_ordered k v m.entries m.ordered⟩

/-- The lookup `m.find(k)`: the value of the entry whose key is equivalent to `k`
for the order (neither is less than the other), if there is one. -/
def find (m : StrMap) (k : Str) : Option Str :=
  (m.entries.find? (fun e => !str_lt e.1 k && !str_lt k e.1)).map Prod.snd

end StrMap

/-! ## HTTPResponse (`http_response.h`, `http_response.cpp`) -/

/-- The enumeration `HTTPResponse::StatusCode`, by its underlying `int`. -/
structure StatusCode where
  code : Int
deriving DecidableEq

namespace StatusCode

def OK : StatusCode := ⟨200⟩
def CREATED : StatusCode := ⟨201⟩
def NO_CONTENT : StatusCode := ⟨204⟩
def BAD_REQUEST : StatusCode := ⟨400⟩
def NOT_FOUND : StatusCode := ⟨404⟩
def METHOD_NOT_ALLOWED : StatusCode := ⟨405⟩
def INTERNAL_SERVER_ERROR : StatusCode := ⟨500⟩
def NOT_IMPLEMENTED : StatusCode := ⟨501⟩

end StatusCode

/-- The class `HTTPResponse`: its three data members. -/
structure HTTPResponse where
  status_code_ : StatusCode
  body_ : Str
  headers_ : StrMap
deriving DecidableEq

namespace HTTPResponse

/-- The constructor `HTTPResponse::HTTPResponse()`: status `OK`, empty body and
the two default headers. -/
def ctor : HTTPResponse :=
  let headers_ := StrMap.empty
  let headers_ := headers_.set (lit "Server") (lit "C++ HTTP Server")
  let headers_ := headers_.set (lit "Connection") (lit "close")
  { status_code_ := StatusCode.OK, body_ := [], headers_ := headers_ }

def set_status_code (r : HTTPResponse) (code : StatusCode) : HTTPResponse :=
  { r with status_code_ := code }

def set_body (r : HTTPResponse) (body : Str) : HTTPResponse :=
  { r with body_ := body }

def set_content_type (r : HTTPResponse) (content_type : Str) : HTTPResponse :=
  { r with headers_ := r.headers_.set (lit "Content-Type") content_type }

def add_header (r : HTTPResponse) (name value : Str) : HTTPResponse :=
  { r with headers_ := r.headers_.set name value }

def status_code_to_string (code : StatusCode) : Str :=
  to_string_int code.code

def get_status_message (code : StatusCode) : Str :=
  if code = StatusCode.OK then lit "OK"
  else if code = StatusCode.CREATED then lit "Created"
  else if code = StatusCode.NO_CONTENT then lit "No Content"
  else if code = StatusCode.BAD_REQUEST then lit "Bad Request"
  else if code = StatusCode.NOT_FOUND then lit "Not Found"
  else if code = StatusCode.METHOD_NOT_ALLOWED then lit "Method Not Allowed"
  else if code = StatusCode.INTERNAL_SERVER_ERROR then lit "Internal Server Error"
  else if code = StatusCode.NOT_IMPLEMENTED then lit "Not Implemented"
  else lit "Unknown"

/-- `HTTPResponse::to_string`: the `std::ostringstream` is the text written so
far, and every `<<` appends to it. -/
def to_string (r : HTTPResponse) : Str :=
  let response : Str := []
  let response := response ++ lit "HTTP/1.1 " ++ status_code_to_string r.status_code_
    ++ lit " " ++ get_status_message r.status_code_ ++ lit "\r\n"
  let response := r.headers_.entries.foldl
    (fun out header => out ++ header.1 ++ lit ": " ++ header.2 ++ lit "\r\n") response
  let response := response ++ lit "\r\n"
  let response := if r.body_ ≠ [] then response ++ r.body_ else response
  response

def set_json_response (r : HTTPResponse) (json_data : Str) : HTTPResponse :=
  let r := { r with body_ := json_data }
  r.set_content_type (lit "application/json")

def set_html_response (r : HTTPResponse) (html_data : Str) : HTTPResponse :=
  let r := { r with body_ := html_data }
  r.set_content_type (lit "text/html; charset=utf-8")

def set_text_response (r : HTTPResponse) (text_data : Str) : HTTPResponse :=
  let r := { r with body_ := text_data }
  r.set_content_type (lit "text/plain; charset=utf-8")

def ok (body : Str) : HTTPResponse :=
  let response := ctor
  let response := response.set_status_code StatusCode.OK
  if body ≠ [] then response.set_body body else response

def not_found (message : Str) : HTTPResponse :=
  let response := ctor
  let response := response.set_status_code StatusCode.NOT_FOUND
  response.set_text_response message

def bad_request (message : Str) : HTTPResponse :=
  let response := ctor
  let response := response.set_status_code StatusCode.BAD_REQUEST
  response.set_text_response message

def internal_error (message : Str) : HTTPResponse :=
  let response := ctor
  let response := response.set_status_code StatusCode.INTERNAL_SERVER_ERROR
  response.set_text_response message

end HTTPResponse

/-! ## HTTPRequest (`http_request.h`, `http_request.cpp`) -/

/-- The enumeration `HTTPRequest::Method`. -/
inductive Method where
  | GET | POST | PUT | DELETE | HEAD | OPTIONS | UNKNOWN
deriving DecidableEq

/-- The class `HTTPRequest`: its six data members. -/
structure HTTPRequest where
  method_ : Method
  path_ : Str
  version_ : Str
  headers_ : StrMap
  body_ : Str
  query_params_ : StrMap
deriving DecidableEq

/-- `isspace` in the "C" locale, which the stream extraction uses. -/
def isspace (c : Char) : Bool :=
  c == ' ' || c == '\t' || c == '\n' || c == '\x0b' || c == '\x0c' || c == '\r'

/-- `toupper` in the "C" locale. -/
def toupper (c : Char) : Char :=
  if 97 ≤ c.toNat ∧ c.toNat ≤ 122 then Char.ofNat (c.toNat - 32) else c

/-- One call `std::getline(stream, line, delim)` on the unread text of a stream:
`none` when the call fails (nothing is left to read), otherwise the line without
its delimiter and the text left after the delimiter. -/
def getline (delim : Char) (stream : Str) : Option (Str × Str) :=
  if stream = [] then none
  else some (stream.takeWhile (fun c => c != delim),
    (stream.dropWhile (fun c => c != delim)).drop 1)

/-- The lines that at most `fuel` successive calls of `getline` return before one
fails. -/
def getlines_fuel (delim : Char) : Nat → Str → List Str
  | 0, _ => []
  | fuel + 1, stream =>
    match getline delim stream with
    | none => []
    | some (line, rest) => line :: getlines_fuel delim fuel rest

/-- The lines that successive calls of `getline` return before one fails; every
successful call reads at least one character, so the length of the text is fuel
enough. -/
def getlines (delim : Char) (stream : Str) : List Str :=
  getlines_fuel delim stream.length stream

/-- One extraction `stream >> word`: skips leading whitespace and reads up to the
next whitespace; `none` when no character is left for the word, otherwise the
word and the text left in the stream. -/
def extract_word (stream : Str) : Option (Str × Str) :=
  let s := stream.dropWhile isspace
  if s = [] then none
  else some (s.takeWhile (fun c => !isspace c), s.dropWhile (fun c => !isspace c))

namespace HTTPRequest

/-- The constructor `HTTPRequest::HTTPRequest()`. -/
def ctor : HTTPRequest :=
  { method_ := Method.UNKNOWN, path_ := [], version_ := [], headers_ := StrMap.empty,
    body_ := [], query_params_ := StrMap.empty }

def parse_method (method_str : Str) : Method :=
  let upper_method := method_str.map toupper
  if upper_method = lit "GET" then Method.GET
  else if upper_method = lit "POST" then Method.POST
  else if upper_method = lit "PUT" then Method.PUT
  else if upper_method = lit "DELETE" then Method.DELETE
  else if upper_method = lit "HEAD" then Method.HEAD
  else if upper_method = lit "OPTIONS" then Method.OPTIONS
  else Method.UNKNOWN

/-- The body of the loop of `parse_query_string` for one segment `param`. -/
def parse_query_param (req : HTTPRequest) (param : Str) : HTTPRequest :=
  let equal_pos := find_char param '='
  if equal_pos ≠ npos then
    let name := substr param 0 equal_pos
    let value := substr param ((equal_pos + 1) % size_mod) npos
    { req with query_params_ := req.query_params_.set name value }
  else req

def parse_query_string (req : HTTPRequest) (query_string : Str) : HTTPRequest :=
  (getlines '&' query_string).foldl parse_query_param req

def parse_request_line (req : HTTPRequest) (line : Str) : HTTPRequest :=
  match extract_word line with
  | none => req
  | some (method_str, stream) =>
    match extract_word stream with
    | none => req
    | some (path_str, stream) =>
      match extract_word stream with
      | none => req
      | some (version_str, _) =>
        let req := { req with method_ := parse_method method_str, path_ := path_str,
                              version_ := version_str }
        let query_pos := find_char req.path_ '?'
        if query_pos ≠ npos then
          let query_string := substr req.path_ ((query_pos + 1) % size_mod) npos
          let req := { req with path_ := substr req.path_ 0 query_pos }
          parse_query_string req query_string
        else req

/-- The body of the loop of `parse_headers` for one line. -/
def parse_header_line (req : HTTPRequest) (line : Str) : HTTPRequest :=
  let colon_pos := find_char line ':'
  if colon_pos ≠ npos then
    let name := substr line 0 colon_pos
    let value := substr line ((colon_pos + 1) % size_mod) npos
    let name := erase name 0 (find_first_not_of name (lit " \t"))
    let name := erase name ((find_last_not_of name (lit " \t") + 1) % size_mod) npos
    let value := erase value 0 (find_first_not_of value (lit " \t"))
    let value := erase value ((find_last_not_of value (lit " \t") + 1) % size_mod) npos
    { req with headers_ := req.headers_.set name value }
  else req

def parse_headers (req : HTTPRequest) (header_lines : List Str) : HTTPRequest :=
  header_lines.foldl parse_header_line req

/-- The first loop of `parse`: reads lines up to the first that is empty or a
lone carriage return (which it consumes), and collects each one, without its
final carriage return, unless that leaves it empty. Returns the collected lines
and the lines left in the stream. -/
def read_header_lines : List Str → List Str → List Str × List Str
  | [], header_lines => (header_lines, [])
  | line :: stream, header_lines =>
    if line ≠ lit "\r" ∧ line ≠ [] then
      let line := if line.getLast? = some '\r' then line.dropLast else line
      let header_lines := if line ≠ [] then header_lines ++ [line] else header_lines
      read_header_lines stream header_lines
    else (header_lines, stream)

/-- The second loop of `parse`: appends every line left, each followed by a
newline. -/
def read_body : List Str → Str → Str
  | [], body_part => body_part
  | line :: stream, body_part => read_body stream (body_part ++ (line ++ lit "\n"))

/-- `HTTPRequest::parse`: the returned flag, and the request object after the
call. -/
def parse (req : HTTPRequest) (raw_request : Str) : Bool × HTTPRequest :=
  if raw_request = [] then (false, req)
  else
    match getlines '\n' raw_request with
    | [] => (false, req)
    | line :: stream =>
      let req := parse_request_line req line
      let (header_lines, stream) := read_header_lines stream []
      let req := parse_headers req header_lines
      let body_part := read_body stream []
      let req :=
        if body_part ≠ [] then
          { req with body_ := substr body_part 0 ((body_part.length + npos) % size_mod) }
        else req
      (true, req)

def get_header (req : HTTPRequest) (name : Str) : Str :=
  match req.headers_.find name with
  | some value => value
  | none => []

def has_header (req : HTTPRequest) (name : Str) : Bool :=
  (req.headers_.find name).isSome

def get_query_param (req : HTTPRequest) (name : Str) : Str :=
  match req.query_params_.find name with
  | some value => value
  | none => []

end HTTPRequest

/-! ## RouteHandler (`route_handler.h`, `route_handler.cpp`) -/

/-- What the handlers read from outside the program: the clock and the files. -/
structure Env where
  /-- The value of `time(nullptr)`. -/
  time : Int
  /-- The contents of the file at a path, when `std::ifstream` opens it. -/
  open_file : Str → Option Str

/-- The struct `RouteHandler::Route`. -/
structure Route where
  method : Str
  path : Str
  callback : HTTPRequest → HTTPResponse

/-- The class `RouteHandler`: its table of routes, in registration order. -/
structure RouteHandler where
  routes_ : List Route

/-- The text of the `switch` over the request method. -/
def method_name : Method → Str
  | Method.GET => lit "GET"
  | Method.POST => lit "POST"
  | Method.PUT => lit "PUT"
  | Method.DELETE => lit "DELETE"
  | Method.HEAD => lit "HEAD"
  | Method.OPTIONS => lit "OPTIONS"
  | Method.UNKNOWN => lit "UNKNOWN"

/-- The page of `handle_root`, byte for byte. -/
def root_html : Str :=
  lit ("\n"
    ++ "<!DOCTYPE html>\n"
    ++ "<html>\n"
    ++ "<head>\n"
    ++ "    <title>C++ HTTP Server</title>\n"
    ++ "    <style>\n"
    ++ "        body \x7b font-family: Arial, sans-serif; margin: 40px; background-color: #f5f5f5; \x7d\n"
    ++ "        .container \x7b max-width: 800px; margin: 0 auto; background: white; padding: 30px; border-radius: 10px; box-shadow: 0 2px 10px rgba(0,0,0,0.1); \x7d\n"
    ++ "        h1 \x7b color: #333; text-align: center; \x7d\n"
    ++ "        .endpoint \x7b background: #f8f9fa; padding: 15px; margin: 10px 0; border-radius: 5px; border-left: 4px solid #007bff; \x7d\n"
    ++ "        .method \x7b font-weight: bold; color: #007bff; \x7d\n"
    ++ "        .path \x7b font-family: monospace; color: #28a745; \x7d\n"
    ++ "        .description \x7b color: #666; margin-top: 5px; \x7d\n"
    ++ "    </style>\n"
    ++ "</head>\n"
    ++ "<body>\n"
    ++ "    <div class=\"container\">\n"
    ++ "        <h1>\xf0\x9f\x9a\x80 C++ HTTP Server</h1>\n"
    ++ "        <p>Welcome to your custom HTTP server built with C++!</p>\n"
    ++ "        \n"
    ++ "        <h2>Available Endpoints:</h2>\n"
    ++ "        \n"
    ++ "        <div class=\"endpoint\">\n"
    ++ "            <div><span class=\"method\">GET</span> <span class=\"path\">/</span></div>\n"
    ++ "            <div class=\"description\">This page - server information and available endpoints</div>\n"
    ++ "        </div>\n"
    ++ "        \n"
    ++ "        <div class=\"endpoint\">\n"
    ++ "            <div><span class=\"method\">GET</span> <span class=\"path\">/health</span></div>\n"
    ++ "            <div class=\"description\">Health check endpoint</div>\n"
    ++ "        </div>\n"
    ++ "        \n"
    ++ "        <div class=\"endpoint\">\n"
    ++ "            <div><span class=\"method\">GET/POST</span> <span class=\"path\">/echo</span></div>\n"
    ++ "            <div class=\"description\">Echo endpoint - returns request data</div>\n"
    ++ "        </div>\n"
    ++ "        \n"
    ++ "        <div class=\"endpoint\">\n"
    ++ "            <div><span class=\"method\">GET</span> <span class=\"path\">/static</span></div>\n"
    ++ "            <div class=\"description\">Static file serving (if files exist)</div>\n"
    ++ "        </div>\n"
    ++ "        \n"
    ++ "        <h2>Features:</h2>\n"
    ++ "        <ul>\n"
    ++ "            <li>Multi-threaded request handling</li>\n"
    ++ "            <li>HTTP/1.1 compliant</li>\n"
    ++ "            <li>Support for GET, POST, PUT, DELETE methods</li>\n"
    ++ "            <li>Query parameter parsing</li>\n"
    ++ "            <li>Header parsing and response generation</li>\n"
    ++ "            <li>Clean, modular architecture</li>\n"
    ++ "        </ul>\n"
    ++ "        \n"
    ++ "        <p><em>Server is running on port 8080</em></p>\n"
    ++ "    </div>\n"
    ++ "</body>\n"
    ++ "</html>\n"
    ++ "    ")

/-- The lines written for the entries of a map by the two loops of
`handle_echo`, appended to the text `json` written so far. -/
def echo_entries (json : Str) (entries : List (Str × Str)) : Str :=
  (entries.foldl
    (fun (st : Str × Bool) entry =>
      let json := if !st.2 then st.1 ++ lit ",\n" else st.1
      (json ++ lit "    \"" ++ entry.1 ++ lit "\": \"" ++ entry.2 ++ lit "\"", false))
    (json, true)).1

namespace RouteHandler

def register_route (rh : RouteHandler) (method path : Str)
    (callback : HTTPRequest → HTTPResponse) : RouteHandler :=
  { rh with routes_ := rh.routes_ ++ [{ method := method, path := path, callback := callback }] }

/-- `RouteHandler::path_matches`; `none` when a string access of it is out of
range: `back()` of an empty pattern, or a `substr` call that starts beyond the
end of its string. The `substr` calls are evaluated only when the last character
of the pattern is `*`, as the right operand of `&&`. -/
def path_matches (route_path request_path : Str) : Option Bool :=
  if route_path = request_path then some true
  else
    match back route_path with
    | none => none
    | some last =>
      if last = '*' then
        match substr_checked request_path 0 ((route_path.length + npos) % size_mod),
            substr_checked route_path 0 ((route_path.length + npos) % size_mod) with
        | some request_prefix, some route_prefix =>
          if request_prefix = route_prefix then some true else some false
        | _, _ => none
      else some false

/-- The loop of `handle_request` over the routes, and the response after it. -/
def find_route (method_str : Str) (request : HTTPRequest) : List Route → Option HTTPResponse
  | [] => some (HTTPResponse.not_found (lit "Route not found: " ++ request.path_))
  | route :: rest =>
    if route.method = method_str then
      match path_matches route.path request.path_ with
      | none => none
      | some true => some (route.callback request)
      | some false => find_route method_str request rest
    else find_route method_str request rest

def handle_request (rh : RouteHandler) (request : HTTPRequest) : Option HTTPResponse :=
  let method_str := method_name request.method_
  find_route method_str request rh.routes_

def handle_root (_request : HTTPRequest) : HTTPResponse :=
  let html := root_html
  let response := HTTPResponse.ctor
  response.set_html_response html

def handle_health (env : Env) (_request : HTTPRequest) : HTTPResponse :=
  let json := lit "\x7b\n    \"status\": \"healthy\",\n    \"server\": \"C++ HTTP Server\",\n    \"timestamp\": \""
    ++ to_string_int env.time ++ lit "\",\n    \"uptime\": \"running\"\n\x7d"
  let response := HTTPResponse.ctor
  response.set_json_response json

def handle_echo (request : HTTPRequest) : HTTPResponse :=
  let json : Str := []
  let json := json ++ lit "\x7b\n"
  let json := json ++ lit "  \"method\": \""
  let json := json ++ method_name request.method_
  let json := json ++ lit "\",\n"
  let json := json ++ lit "  \"path\": \"" ++ request.path_ ++ lit "\",\n"
  let json := json ++ lit "  \"version\": \"" ++ request.version_ ++ lit "\",\n"
  let json := json ++ lit "  \"headers\": \x7b\n"
  let json := echo_entries json request.headers_.entries
  let json := json ++ lit "\n  \x7d,\n"
  let json := json ++ lit "  \"query_params\": \x7b\n"
  let json := echo_entries json request.query_params_.entries
  let json := json ++ lit "\n  \x7d,\n"
  let json := json ++ lit "  \"body\": \"" ++ request.body_ ++ lit "\"\n"
  let json := json ++ lit "\x7d"
  let response := HTTPResponse.ctor
  response.set_json_response json

/-- Whether `path` ends with `ext`: the test
`path.length() >= n && path.substr(path.length() - n) == ext` with `n` the
length of `ext`. -/
def has_extension (path ext : Str) : Bool :=
  path.length ≥ ext.length && substr path (path.length - ext.length) npos == ext

/-- The first statements of `handle_static_file`: the request path with
`/static` replaced by `/static/index.html`, then without a leading `/static`. -/
def static_path (request_path : Str) : Str :=
  let path := request_path
  let path := if path = lit "/static" then lit "/static/index.html" else path
  let path := if substr path 0 7 = lit "/static" then substr path 7 npos else path
  path

def handle_static_file (env : Env) (request : HTTPRequest) : HTTPResponse :=
  let path := static_path request.path_
  if find_str path (lit "..") ≠ npos then
    HTTPResponse.bad_request (lit "Invalid path")
  else
    let file_path := lit "." ++ path
    match env.open_file file_path with
    | none => HTTPResponse.not_found (lit "File not found: " ++ path)
    | some content =>
      let response := HTTPResponse.ctor
      let response := response.set_status_code StatusCode.OK
      let response := response.set_body content
      if has_extension path (lit ".html") then
        response.set_content_type (lit "text/html; charset=utf-8")
      else if has_extension path (lit ".css") then
        response.set_content_type (lit "text/css")
      else if has_extension path (lit ".js") then
        response.set_content_type (lit "application/javascript")
      else if has_extension path (lit ".json") then
        response.set_content_type (lit "application/json")
      else if has_extension path (lit ".png") then
        response.set_content_type (lit "image/png")
      else if has_extension path (lit ".jpg") || has_extension path (lit ".jpeg") then
        response.set_content_type (lit "image/jpeg")
      else
        response.set_content_type (lit "application/octet-stream")

def register_default_routes (env : Env) (rh : RouteHandler) : RouteHandler :=
  let rh := rh.register_route (lit "GET") (lit "/") (fun req => handle_root req)
  let rh := rh.register_route (lit "GET") (lit "/health") (fun req => handle_health env req)
  let rh := rh.register_route (lit "GET") (lit "/echo") (fun req => handle_echo req)
  let rh := rh.register_route (lit "POST") (lit "/echo") (fun req => handle_echo req)
  let rh := rh.register_route (lit "GET") (lit "/static")
    (fun req => handle_static_file env req)
  rh

/-- The constructor `RouteHandler::RouteHandler()`. -/
def ctor (env : Env) : RouteHandler :=
  register_default_routes env { routes_ := [] }

end RouteHandler

/-! ## HTTPServer (`http_server.h`, `http_server.cpp`) -/

namespace HTTPServer

/-- What one call `recv(client_socket, buffer, sizeof(buffer) - 1, 0)` returns:
the bytes received, whose number (at most 4095) is the value returned, zero for
no bytes when the peer has closed the connection; or an error, a negative
value. -/
inductive RecvResult where
  | received (chunk : Str)
  | error

/-- The value `bytes_read` of a call of `recv`. -/
def RecvResult.bytes_read : RecvResult → Int
  | RecvResult.received chunk => chunk.length
  | RecvResult.error => -1

/-- The text that `request_data += buffer` appends after
`buffer[bytes_read] = '\0'`: the buffer is read as a C string, so up to its
first zero byte. -/
def c_string (chunk : Str) : Str :=
  chunk.takeWhile (fun c => c != '\x00')

/-- The read loop of `HTTPServer::handle_client` on the results of the
successive calls of `recv`, from the request data accumulated so far: the value
of `bytes_read` and the request data when the loop ends; `none` when the results
run out before it ends. -/
def read_loop : List RecvResult → Str → Option (Int × Str)
  | [], _ => none
  | result :: rest, request_data =>
    let bytes_read := result.bytes_read
    if bytes_read > 0 then
      match result with
      | RecvResult.received chunk =>
        let request_data := request_data ++ c_string chunk
        if find_str request_data (lit "\r\n\r\n") ≠ npos then some (bytes_read, request_data)
        else read_loop rest request_data
      | RecvResult.error => some (bytes_read, request_data)
    else some (bytes_read, request_data)

end HTTPServer

/-! ## The server process (`main.cpp`, `HTTPServer::start`, `accept_connections`, `stop`) -/

/-- Where the main thread stands once `start` has bound the socket and set
`running_`: in the loop of `accept_connections`, which `start` calls on the
calling thread; in the loop of `main` that follows the return of `start`; or
returned from `main` with an exit code. -/
inductive MainLocation where
  | accept_connections
  | wait_for_shutdown
  | exited (code : Int)
deriving DecidableEq

/-- The two flags of the process and the place of its main thread: `running` is
the global of `main.cpp`, `running_` the member of `HTTPServer`. -/
structure Process where
  running : Bool
  running_ : Bool
  main_thread : MainLocation
deriving DecidableEq

/-- What can run next: `signal_handler`, on delivery of SIGINT or SIGTERM; the
main thread, for one test of the loop it stands in and what the test leads to;
one round of `worker_thread`; a thread that runs `handle_client`. -/
inductive ProcessEvent where
  | signal
  | main_thread
  | worker_thread
  | client_thread
deriving DecidableEq

/-- `HTTPServer::stop`, as far as the flag goes: nothing when `running_` is
already false, otherwise `running_ = false`. -/
def Process.stop (p : Process) : Process :=
  if !p.running_ then p else { p with running_ := false }

/-- One event of the process. `signal_handler` executes `running = false` on the
global. In `accept_connections` the main thread tests `running_`: when it holds,
one round of the loop follows (a call of `accept`, then `continue` or a detached
client thread), otherwise the loop ends and `start` returns true to `main`. In
`main` it tests `running && server.is_running()`: when it holds it sleeps,
otherwise it calls `stop` and returns 0. `worker_thread` only reads `running_`,
and `handle_client` touches neither flag. -/
def Process.step (p : Process) : ProcessEvent → Process
  | ProcessEvent.signal => { p with running := false }
  | ProcessEvent.main_thread =>
    match p.main_thread with
    | MainLocation.accept_connections =>
      if p.running_ then p else { p with main_thread := MainLocation.wait_for_shutdown }
    | MainLocation.wait_for_shutdown =>
      if p.running && p.running_ then p
      else { p.stop with main_thread := MainLocation.exited 0 }
    | MainLocation.exited _ => p
  | ProcessEvent.worker_thread => p
  | ProcessEvent.client_thread => p

/-- The process after a sequence of events. -/
def Process.run (p : Process) (events : List ProcessEvent) : Process :=
  events.foldl Process.step p

/-- The process when `start` enters `accept_connections`: the global `running`
has its initial value true and `start` has executed `running_ = true`. -/
def Process.accepting : Process :=
  { running := true, running_ := true, main_thread := MainLocation.accept_connections }

/-! ## Vocabulary of the specification -/

/-- A sequence of `register_route` calls, one per entry, in order. -/
def register_all (rh : RouteHandler) (bindings : List Route) : RouteHandler :=
  bindings.foldl (fun rh b => rh.register_route b.method b.path b.callback) rh

/-- Whether a character is a space or a tab. -/
def is_blank (c : Char) : Bool := c == ' ' || c == '\t'

/-- A string without its trailing spaces and tabs. -/
def rtrim (s : Str) : Str := (s.reverse.dropWhile is_blank).reverse

/-- A string without its leading and trailing spaces and tabs. -/
def trim_blanks (s : Str) : Str := rtrim (s.dropWhile is_blank)

/-- The two sides of a string around the first occurrence of `c`, when `c`
occurs in it. -/
def split_first (c : Char) (s : Str) : Option (Str × Str) :=
  if c ∈ s then
    some (s.takeWhile (fun x => x != c), (s.dropWhile (fun x => x != c)).drop 1)
  else none

/-- The header a line stands for: the two sides of its first colon, each
without its leading and trailing spaces and tabs; none for a line without
colon. -/
def header_of_line (line : Str) : Option (Str × Str) :=
  (split_first ':' line).map (fun sides => (trim_blanks sides.1, trim_blanks sides.2))

/-- The map after the assignments `m[name] = value` for the pairs of a list, in
order. -/
def set_all (m : StrMap) (pairs : List (Str × Str)) : StrMap :=
  pairs.foldl (fun m pair => m.set pair.1 pair.2) m

/-- The header lines that `parse` hands to `parse_headers`: what its first loop
collects from the lines after the request line. -/
def header_section (raw_request : Str) : List Str :=
  (HTTPRequest.read_header_lines (getlines '\n' raw_request).tail []).1

/-- The pieces of a string between the occurrences of `c`: one more than there
are occurrences. -/
def split_on (c : Char) : Str → List Str
  | [] => [[]]
  | x :: xs =>
    if x = c then [] :: split_on c xs
    else
      match split_on c xs with
      | piece :: pieces => (x :: piece) :: pieces
      | [] => [[x]]

/-- The whitespace-separated tokens of a line: its maximal runs of characters
that are not whitespace. -/
def words : Str → List Str
  | [] => []
  | c :: cs =>
    if isspace c then words cs
    else
      match cs with
      | [] => [[c]]
      | d :: _ =>
        if isspace d then [c] :: words cs
        else
          match words cs with
          | w :: ws => (c :: w) :: ws
          | [] => [[c]]

/-- The name/value pairs of a query string: its segments between `&`, each split
at its first `=`, without the segments that have no `=`. -/
def query_pairs (query_string : Str) : List (Str × Str) :=
  (split_on '&' query_string).filterMap (split_first '=')

/-- The value of the last pair with the given name in a list of pairs. -/
def last_value (pairs : List (Str × Str)) (name : Str) : Option Str :=
  (pairs.reverse.find? (fun pair => pair.1 == name)).map Prod.snd

/-- The text that follows the first line of a text that is empty or a lone
carriage return, looking at no more than `fuel` lines; the empty text when no
such line is found. -/
def after_blank_line_fuel : Nat → Str → Str
  | 0, _ => []
  | fuel + 1, text =>
    match getline '\n' text with
    | none => []
    | some (line, rest) =>
      if line = lit "\r" ∨ line = [] then rest else after_blank_line_fuel fuel rest

/-- The text that follows the first line of a text that is empty or a lone
carriage return; every line read takes at least one character, so the length of
the text is fuel enough. -/
def after_blank_line (text : Str) : Str :=
  after_blank_line_fuel text.length text

/-- The raw text that follows the header-terminating blank line: the first line
after the request line that is empty or a lone carriage return. -/
def body_text (raw_request : Str) : Str :=
  after_blank_line ((raw_request.dropWhile (fun c => c != '\n')).drop 1)

/-- A text without its final newline, when it ends with one. -/
def strip_newline (s : Str) : Str :=
  if s.getLast? = some '\n' then s.dropLast else s

/-- The lower-case form of an ASCII capital letter; any other character
unchanged. -/
def ascii_lower (c : Char) : Char :=
  if 65 ≤ c.toNat ∧ c.toNat ≤ 90 then Char.ofNat (c.toNat + 32) else c

/-- Whether two strings are equal up to the case of their ASCII letters. -/
def eq_ignore_case (a b : Str) : Bool :=
  a.map ascii_lower == b.map ascii_lower

/-- The text `"<name>": "<value>"` of a name/value pair in the JSON of the echo
handler. -/
def quoted_pair (name value : Str) : Str :=
  lit "\"" ++ name ++ lit "\": \"" ++ value ++ lit "\""

/-- The status line of a response, without its line end. -/
def status_line (r : HTTPResponse) : Str :=
  lit "HTTP/1.1 " ++ to_string_int r.status_code_.code ++ lit " "
    ++ HTTPResponse.get_status_message r.status_code_

/-- The line of a header, without its line end. -/
def header_line (header : Str × Str) : Str :=
  header.1 ++ lit ": " ++ header.2

/-- The head of a response: the status line and the header lines, joined by
CR LF. -/
def response_head (r : HTTPResponse) : Str :=
  List.intercalate (lit "\r\n") (status_line r :: r.headers_.entries.map header_line)

/-- The concatenation of the chunks of a list, after the text accumulated so
far, up to and including the first chunk after which the accumulated text
contains CR LF CR LF; of all chunks when there is no such chunk. -/
def accumulate_until_terminator : List Str → Str → Str
  | [], accumulated => accumulated
  | chunk :: chunks, accumulated =>
    if lit "\r\n\r\n" <:+: accumulated ++ chunk then accumulated ++ chunk
    else accumulate_until_terminator chunks (accumulated ++ chunk)

/-! ## Properties -/

/-! ### Strings and positions -/

theorem substr_zero (s : Str) (n : Nat) : substr s 0 n = s.take n := rfl

theorem size_sub_one (n : Nat) (h0 : 0 < n) (h : n < size_mod) :
    (n + npos) % size_mod = n - 1 := by
  unfold size_mod npos at *
  omega

theorem lit_star : lit "*" = ['*'] := rfl

/-! ### The route table -/

namespace RouteHandler

theorem register_all_routes (rh : RouteHandler) (bindings : List Route) :
    (register_all rh bindings).routes_ = rh.routes_ ++ bindings := by
  induction bindings generalizing rh with
  | nil => simp [register_all]
  | cons b bs ih =>
    have h := ih (rh.register_route b.method b.path b.callback)
    simp only [register_all, List.foldl_cons] at h ⊢
    rw [h]
    simp [register_route]

theorem find_route_skip (m : Str) (request : HTTPRequest) (pre rest : List Route)
    (hpre : ∀ r ∈ pre, r.method = m → path_matches r.path request.path_ = some false) :
    find_route m request (pre ++ rest) = find_route m request rest := by
  induction pre with
  | nil => rfl
  | cons r rs ih =>
    have hr := hpre r (List.mem_cons_self _ _)
    have hrs := ih (fun x hx => hpre x (List.mem_cons_of_mem _ hx))
    simp only [List.cons_append, find_route]
    split_ifs with hm
    · rw [hr hm]; exact hrs
    · exact hrs

/-- A `substr` call from position 0 is in range for every string. -/
theorem substr_checked_zero (s : Str) (n : Nat) :
    substr_checked s 0 n = some (substr s 0 n) := by
  unfold substr_checked
  rw [if_pos (Nat.zero_le _)]

/-- The value of `path_matches`, with the two `substr` calls from position 0
resolved. -/
theorem path_matches_eq (route_path request_path : Str) :
    path_matches route_path request_path
      = if route_path = request_path then some true
        else
          match route_path.getLast? with
          | none => none
          | some last =>
            if last = '*' ∧
                substr request_path 0 ((route_path.length + npos) % size_mod)
                  = substr route_path 0 ((route_path.length + npos) % size_mod) then
              some true
            else some false := by
  unfold path_matches back
  rw [substr_checked_zero, substr_checked_zero]
  split_ifs with heq
  · rfl
  · cases route_path.getLast? with
    | none => rfl
    | some last =>
      by_cases hlast : last = '*'
      · by_cases hsub : substr request_path 0 ((route_path.length + npos) % size_mod)
            = substr route_path 0 ((route_path.length + npos) % size_mod)
        · simp [hlast, hsub]
        · simp [hlast, hsub]
      · simp [hlast]

/-- The value of `path_matches` for a pattern that ends in `*`: whether the
pattern without its last character is a prefix of the request path. -/
theorem path_matches_star (p r : Str) (hp : (p ++ lit "*").length < size_mod) :
    path_matches (p ++ lit "*") r = some (p.isPrefixOf r) := by
  have hlen : ((p ++ lit "*").length + npos) % size_mod = p.length := by
    rw [size_sub_one _ (by simp [lit_star]) hp]
    simp [lit_star]
  have htake : List.take p.length (p ++ lit "*") = p := by simp
  rw [path_matches_eq]
  split_ifs with heq
  · have : p <+: r := ⟨lit "*", heq⟩
    simp [List.isPrefixOf_iff_prefix, this]
  · have hlast : (p ++ lit "*").getLast? = some '*' := by simp [lit_star]
    rw [hlast]
    simp only [hlen, substr_zero, htake, true_and]
    by_cases hpre : p <+: r
    · have h1 : List.take p.length r = p := (List.prefix_iff_eq_take.1 hpre).symm
      simp [h1, List.isPrefixOf_iff_prefix, hpre]
    · have h1 : ¬ List.take p.length r = p := fun h =>
        hpre (List.prefix_iff_eq_take.2 h.symm)
      have h2 : p.isPrefixOf r = false := by
        rw [Bool.eq_false_iff]
        exact fun h => hpre (List.isPrefixOf_iff_prefix.1 h)
      simp [h1, h2]

/-- A pattern that does not end in `*` matches the identical path only. -/
theorem path_matches_exact (pattern r : Str) (h : pattern.getLast? ≠ some '*') :
    path_matches pattern r = some true ↔ pattern = r := by
  rw [path_matches_eq]
  split_ifs with heq
  · simp [heq]
  · cases hl : pattern.getLast? with
    | none => simp [heq]
    | some c =>
      have hc : c ≠ '*' := fun hc => h (by rw [hl, hc])
      simp [hc, heq]

/-- `path_matches` reaches `back()` of an empty string exactly for the empty
pattern and a request path that is not empty. -/
theorem path_matches_none_iff (pattern r : Str) :
    path_matches pattern r = none ↔ pattern = [] ∧ r ≠ [] := by
  rw [path_matches_eq]
  cases pattern with
  | nil =>
    cases r with
    | nil => simp
    | cons c cs => simp
  | cons c cs =>
    split_ifs with heq
    · simp
    · cases hl : (c :: cs).getLast? with
      | none => simp at hl
      | some d =>
        simp only
        split_ifs <;> simp

end RouteHandler

/-! ### Dispatch -/

/-- C1: `handle_request` returns the result of the handler of the first binding,
in registration order, whose method string equals the request's method name and
whose pattern matches the request path, whatever bindings are registered after
it, also ones that match too. The binding is the first one: for every binding
registered before it with that method string, `path_matches` returns false (it
returns nothing only for an empty pattern, see `path_matches_none_iff`). -/
theorem handle_request_first_match (rh : RouteHandler) (route : Route)
    (later : List Route) (request : HTTPRequest)
    (hpre : ∀ r ∈ rh.routes_, r.method = method_name request.method_ →
      RouteHandler.path_matches r.path request.path_ = some false)
    (hm : route.method = method_name request.method_)
    (hp : RouteHandler.path_matches route.path request.path_ = some true) :
    RouteHandler.handle_request
        (register_all (rh.register_route route.method route.path route.callback) later)
        request
      = some (route.callback request) := by
  unfold RouteHandler.handle_request
  rw [RouteHandler.register_all_routes]
  simp only [RouteHandler.register_route, List.append_assoc]
  rw [RouteHandler.find_route_skip _ _ _ _ hpre]
  simp [RouteHandler.find_route, hm, hp]

/-- C1, at a table with an exact binding that does not match, then the wildcard
binding `GET /x*`, then the exact binding `GET /xy`: the request `GET /xy`
matches the last two and gets the response of the earlier one. -/
theorem handle_request_first_match_witness :
    RouteHandler.path_matches (lit "/xy") (lit "/xy") = some true ∧
    RouteHandler.handle_request
        (register_all
          ((RouteHandler.register_route { routes_ := [] } (lit "GET") (lit "/a")
              (fun _ => HTTPResponse.ok (lit "a"))).register_route
            (lit "GET") (lit "/x*") (fun _ => HTTPResponse.ok (lit "first")))
          [{ method := lit "GET", path := lit "/xy",
             callback := fun _ => HTTPResponse.ok (lit "second") }])
        { HTTPRequest.ctor with method_ := Method.GET, path_ := lit "/xy" }
      = some (HTTPResponse.ok (lit "first")) :=
  ⟨by decide,
   handle_request_first_match
    (RouteHandler.register_route { routes_ := [] } (lit "GET") (lit "/a")
      (fun _ => HTTPResponse.ok (lit "a")))
    { method := lit "GET", path := lit "/x*",
      callback := fun _ => HTTPResponse.ok (lit "first") }
    [{ method := lit "GET", path := lit "/xy",
       callback := fun _ => HTTPResponse.ok (lit "second") }]
    { HTTPRequest.ctor with method_ := Method.GET, path_ := lit "/xy" }
    (by
      intro r hr _
      simp only [RouteHandler.register_route, List.nil_append, List.mem_singleton] at hr
      subst hr
      decide)
    (by decide) (by decide)⟩

/-- C2, as stated, fails: the pattern `/a*` ends in `*` and does not match the
request path `/b`. -/
theorem path_matches_star_not_always_true :
    (lit "/a*").getLast? = some '*' ∧
    RouteHandler.path_matches (lit "/a*") (lit "/b") = some false := by
  decide

/-- C2, amended: for a pattern that ends in `*`, `path_matches` returns whether
the pattern without its final `*` is a prefix of the request path; the check
compares the request path with the pattern, not the pattern with itself. -/
theorem path_matches_trailing_star (pattern request : Str)
    (hlen : pattern.length < size_mod) (hstar : pattern.getLast? = some '*') :
    RouteHandler.path_matches pattern request
      = some (pattern.dropLast.isPrefixOf request) := by
  have hne : pattern ≠ [] := by
    intro h
    rw [h] at hstar
    simp at hstar
  have hsplit : pattern = pattern.dropLast ++ lit "*" := by
    have h1 := List.dropLast_append_getLast hne
    have h2 : pattern.getLast hne = '*' := by
      rw [List.getLast?_eq_getLast pattern hne] at hstar
      exact Option.some.inj hstar
    rw [h2] at h1
    exact h1.symm
  have h := RouteHandler.path_matches_star pattern.dropLast request (by rw [← hsplit]; exact hlen)
  rw [← hsplit] at h
  exact h

/-- C2, amended, at the patterns `/a*` and the request paths `/ab` and `/b`. -/
theorem path_matches_trailing_star_witness :
    RouteHandler.path_matches (lit "/a*") (lit "/ab") = some true ∧
    RouteHandler.path_matches (lit "/a*") (lit "/b") = some false :=
  ⟨path_matches_trailing_star (lit "/a*") (lit "/ab") (by decide) (by decide),
   path_matches_trailing_star (lit "/a*") (lit "/b") (by decide) (by decide)⟩

/-- C3: `path_matches (p + "*") r` is true exactly when `r` begins with `p`; the
pattern `/prefix/*` matches exactly the request paths that begin with
`/prefix/`; a pattern that does not end in `*` matches the identical path
only. -/
theorem path_matches_prefix_semantics :
    (∀ p r : Str, (p ++ lit "*").length < size_mod →
      (RouteHandler.path_matches (p ++ lit "*") r = some true ↔ p <+: r)) ∧
    (∀ r : Str,
      RouteHandler.path_matches (lit "/prefix/*") r = some true ↔ lit "/prefix/" <+: r) ∧
    (∀ pattern r : Str, pattern.getLast? ≠ some '*' →
      (RouteHandler.path_matches pattern r = some true ↔ pattern = r)) := by
  refine ⟨?_, ?_, RouteHandler.path_matches_exact⟩
  · intro p r hp
    rw [RouteHandler.path_matches_star p r hp]
    simp [List.isPrefixOf_iff_prefix]
  · intro r
    have h := RouteHandler.path_matches_star (lit "/prefix/") r (by decide)
    have e : lit "/prefix/" ++ lit "*" = lit "/prefix/*" := by decide
    rw [e] at h
    rw [h]
    simp [List.isPrefixOf_iff_prefix]

/-- C3, at the pattern `/api/*`: it matches `/api/users`, and the exact pattern
`/health` does not match `/healthz`. -/
theorem path_matches_prefix_semantics_witness :
    RouteHandler.path_matches (lit "/api/" ++ lit "*") (lit "/api/users") = some true ∧
    ¬ RouteHandler.path_matches (lit "/health") (lit "/healthz") = some true :=
  ⟨(path_matches_prefix_semantics.1 (lit "/api/") (lit "/api/users") (by decide)).2
      ⟨lit "users", by decide⟩,
   fun h => absurd ((path_matches_prefix_semantics.2.2 (lit "/health") (lit "/healthz")
      (by decide)).1 h) (by decide)⟩

/-- C4: when no binding has the request's method name and a pattern that matches
the request path (for every binding with that method string `path_matches`
returns false), `handle_request` returns a response with status 404,
`Content-Type: text/plain; charset=utf-8` and the body `Route not found: `
followed by the request path. -/
theorem handle_request_not_found (rh : RouteHandler) (request : HTTPRequest)
    (hno : ∀ r ∈ rh.routes_, r.method = method_name request.method_ →
      RouteHandler.path_matches r.path request.path_ = some false) :
    ∃ response : HTTPResponse,
      RouteHandler.handle_request rh request = some response ∧
      response = HTTPResponse.not_found (lit "Route not found: " ++ request.path_) ∧
      response.status_code_ = StatusCode.NOT_FOUND ∧
      response.status_code_.code = 404 ∧
      response.headers_.find (lit "Content-Type") = some (lit "text/plain; charset=utf-8") ∧
      response.body_ = lit "Route not found: " ++ request.path_ ∧
      request.path_ <:+: response.body_ := by
  refine ⟨HTTPResponse.not_found (lit "Route not found: " ++ request.path_), ?_, rfl, rfl, rfl,
    rfl, rfl, ?_⟩
  · unfold RouteHandler.handle_request
    have h := RouteHandler.find_route_skip (method_name request.method_) request rh.routes_ [] hno
    rw [List.append_nil] at h
    rw [h]
    rfl
  · exact List.IsSuffix.isInfix ⟨lit "Route not found: ", rfl⟩

/-- C4, at the table with the one binding `GET /a` and the request `POST /b`. -/
theorem handle_request_not_found_witness :
    ∃ response : HTTPResponse,
      RouteHandler.handle_request
          (RouteHandler.register_route { routes_ := [] } (lit "GET") (lit "/a")
            (fun _ => HTTPResponse.ok (lit "a")))
          { HTTPRequest.ctor with method_ := Method.POST, path_ := lit "/b" }
        = some response ∧
      response.status_code_.code = 404 ∧
      response.body_ = lit "Route not found: /b" := by
  obtain ⟨response, h1, _, _, h4, _, h6, _⟩ :=
    handle_request_not_found
      (RouteHandler.register_route { routes_ := [] } (lit "GET") (lit "/a")
        (fun _ => HTTPResponse.ok (lit "a")))
      { HTTPRequest.ctor with method_ := Method.POST, path_ := lit "/b" }
      (by
        intro r hr hm
        simp only [RouteHandler.register_route, List.nil_append, List.mem_singleton] at hr
        subst hr
        exact absurd hm (by decide))
  exact ⟨response, h1, h4, h6⟩

/-! ### The request parser -/

theorem getline_length (delim : Char) (stream line rest : Str)
    (h : getline delim stream = some (line, rest)) :
    line.length + rest.length < stream.length + 1 ∧ rest.length < stream.length := by
  unfold getline at h
  split_ifs at h with hs
  simp only [Option.some.injEq, Prod.mk.injEq] at h
  obtain ⟨h1, h2⟩ := h
  have h3 := List.takeWhile_append_dropWhile (fun c => c != delim) stream
  have h4 : stream.length = line.length
      + (List.dropWhile (fun c => c != delim) stream).length := by
    rw [← h1, ← List.length_append, h3]
  have h5 : rest.length = (List.dropWhile (fun c => c != delim) stream).length - 1 := by
    rw [← h2]; simp
  have h6 : 0 < stream.length := List.length_pos.2 hs
  omega

theorem getlines_fuel_enough (delim : Char) :
    ∀ (n m : Nat) (stream : Str), stream.length ≤ n → stream.length ≤ m →
      getlines_fuel delim n stream = getlines_fuel delim m stream
  | 0, 0, _, _, _ => rfl
  | 0, m + 1, stream, h, _ => by
    have hs : stream = [] := List.length_eq_zero.1 (Nat.le_zero.1 h)
    simp [getlines_fuel, getline, hs]
  | n + 1, 0, stream, _, h => by
    have hs : stream = [] := List.length_eq_zero.1 (Nat.le_zero.1 h)
    simp [getlines_fuel, getline, hs]
  | n + 1, m + 1, stream, hn, hm => by
    simp only [getlines_fuel]
    cases hg : getline delim stream with
    | none => rfl
    | some p =>
      obtain ⟨line, rest⟩ := p
      have hl := (getline_length delim stream line rest hg).2
      simp only
      rw [getlines_fuel_enough delim n m rest (by omega) (by omega)]

/-- The lines of a stream are what one `getline` returns, followed by the lines
of what it leaves. -/
theorem getlines_eq (delim : Char) (stream : Str) :
    getlines delim stream =
      match getline delim stream with
      | none => []
      | some (line, rest) => line :: getlines delim rest := by
  unfold getlines
  cases hs : stream with
  | nil => simp [getlines_fuel, getline]
  | cons c cs =>
    simp only [List.length_cons, getlines_fuel]
    cases hg : getline delim (c :: cs) with
    | none => rfl
    | some p =>
      obtain ⟨line, rest⟩ := p
      have hl := (getline_length delim (c :: cs) line rest hg).2
      simp only [List.length_cons] at hl
      simp only
      rw [getlines_fuel_enough delim cs.length rest.length rest (by omega) (le_refl _)]

theorem getlines_cons (delim : Char) (stream : Str) (h : stream ≠ []) :
    getlines delim stream = List.takeWhile (fun c => c != delim) stream ::
      getlines delim ((List.dropWhile (fun c => c != delim) stream).drop 1) := by
  rw [getlines_eq]
  simp [getline, h]

/-- C5: `HTTPRequest::parse` reports failure exactly when the raw input is the
empty string; every other input parses successfully. -/
theorem parse_fails_iff_empty (req : HTTPRequest) (raw_request : Str) :
    (HTTPRequest.parse req raw_request).1 = false ↔ raw_request = [] := by
  constructor
  · intro h
    by_contra hne
    unfold HTTPRequest.parse at h
    rw [if_neg hne, getlines_cons _ _ hne] at h
    simp at h
  · intro h
    simp [HTTPRequest.parse, h]

/-! ### The static file handler -/

theorem index_of_sub_none (needle : Str) :
    ∀ (s : Str) (i : Nat), index_of_sub needle s i = none ↔ ¬ needle <:+: s
  | [], i => by
    simp only [index_of_sub, List.infix_nil]
    split_ifs with h <;> simp [h]
  | c :: cs, i => by
    simp only [index_of_sub, List.infix_cons_iff]
    split_ifs with h
    · simp [List.isPrefixOf_iff_prefix.1 h]
    · have h1 : ¬ needle <+: c :: cs := fun hp => h (List.isPrefixOf_iff_prefix.2 hp)
      rw [index_of_sub_none needle cs (i + 1)]
      simp [h1]

theorem index_of_sub_bound (needle : Str) (hn : needle ≠ []) :
    ∀ (s : Str) (i j : Nat), index_of_sub needle s i = some j → j < i + s.length
  | [], i, j, h => by
    simp only [index_of_sub, if_neg hn] at h
    exact Option.noConfusion h
  | c :: cs, i, j, h => by
    simp only [index_of_sub] at h
    split_ifs at h
    · simp only [Option.some.injEq] at h
      simp only [List.length_cons]
      omega
    · have := index_of_sub_bound needle hn cs (i + 1) j h
      simp only [List.length_cons]
      omega

/-- `find` of a non-empty string is not `npos` exactly when the string occurs. -/
theorem find_str_ne_npos (s needle : Str) (hn : needle ≠ []) (hlen : s.length < size_mod) :
    find_str s needle ≠ npos ↔ needle <:+: s := by
  unfold find_str
  cases h : index_of_sub needle s 0 with
  | none =>
    simp only [pos_result, ne_eq, not_true_eq_false, false_iff]
    exact (index_of_sub_none needle s 0).1 h
  | some j =>
    have hb := index_of_sub_bound needle hn s 0 j h
    have hin : needle <:+: s := by
      by_contra hc
      rw [(index_of_sub_none needle s 0).2 hc] at h
      exact Option.noConfusion h
    simp only [pos_result, hin, iff_true]
    unfold size_mod at hlen ⊢
    unfold npos
    omega

theorem dots_infix_static (rest : Str) :
    lit ".." <:+: lit "/static" ++ rest ↔ lit ".." <:+: rest := by
  have e1 : lit ".." = ['.', '.'] := rfl
  have e2 : lit "/static" = ['/', 's', 't', 'a', 't', 'i', 'c'] := rfl
  rw [e1, e2]
  simp [List.infix_cons_iff, List.cons_prefix_cons]

theorem substr_npos (s : Str) (pos : Nat) (h : s.length < size_mod) :
    substr s pos npos = s.drop pos := by
  unfold substr
  apply List.take_of_length_le
  have h1 : (List.drop pos s).length ≤ s.length := by simp
  unfold size_mod at h
  unfold npos
  omega

/-- Stripping the leading `/static` neither removes nor creates an occurrence of
`..`. -/
theorem dots_infix_static_path (path : Str) (hlen : path.length < size_mod) :
    lit ".." <:+: RouteHandler.static_path path ↔ lit ".." <:+: path := by
  unfold RouteHandler.static_path
  by_cases h1 : path = lit "/static"
  · subst h1
    decide
  · simp only [if_neg h1]
    split_ifs with h2
    · have h3 : path = lit "/static" ++ substr path 7 npos := by
        have h4 := List.take_append_drop 7 path
        have h5 : List.take 7 path = lit "/static" := h2
        rw [substr_npos path 7 hlen, ← h5]
        exact h4.symm
      rw [iff_comm]
      nth_rewrite 1 [h3]
      exact dots_infix_static _
    · rfl

theorem static_path_length (path : Str) (hlen : path.length < size_mod) :
    (RouteHandler.static_path path).length < size_mod := by
  unfold RouteHandler.static_path
  by_cases h1 : path = lit "/static"
  · subst h1
    decide
  · simp only [if_neg h1]
    split_ifs with h2
    · rw [substr_npos path 7 hlen]
      simp only [List.length_drop]
      omega
    · exact hlen

theorem set_content_type_status (r : HTTPResponse) (t : Str) :
    (r.set_content_type t).status_code_ = r.status_code_ := rfl

/-- C7: for a request path that contains `..` the static file handler returns
400 Bad Request with the body `Invalid path`, whatever the files are (no file is
opened); for a path without `..` it does not return 400; stripping the leading
`/static` neither removes nor creates an occurrence of `..`. -/
theorem handle_static_file_traversal (env : Env) (request : HTTPRequest)
    (hlen : request.path_.length < size_mod) :
    (lit ".." <:+: RouteHandler.static_path request.path_ ↔ lit ".." <:+: request.path_) ∧
    (lit ".." <:+: request.path_ →
      RouteHandler.handle_static_file env request
        = HTTPResponse.bad_request (lit "Invalid path")) ∧
    (HTTPResponse.bad_request (lit "Invalid path")).status_code_.code = 400 ∧
    (HTTPResponse.bad_request (lit "Invalid path")).body_ = lit "Invalid path" ∧
    ((RouteHandler.handle_static_file env request).status_code_ = StatusCode.BAD_REQUEST ↔
      lit ".." <:+: request.path_) := by
  have hfind := find_str_ne_npos (RouteHandler.static_path request.path_) (lit "..")
    (by decide) (static_path_length _ hlen)
  rw [dots_infix_static_path _ hlen] at hfind
  refine ⟨dots_infix_static_path _ hlen, ?_, rfl, rfl, ?_⟩
  · intro h
    unfold RouteHandler.handle_static_file
    simp only [if_pos (hfind.2 h)]
  · constructor
    · intro hs
      by_contra hno
      have hneg : ¬ find_str (RouteHandler.static_path request.path_) (lit "..") ≠ npos :=
        fun hc => hno (hfind.1 hc)
      unfold RouteHandler.handle_static_file at hs
      simp only [if_neg hneg] at hs
      cases ho : env.open_file (lit "." ++ RouteHandler.static_path request.path_) with
      | none =>
        rw [ho] at hs
        change StatusCode.NOT_FOUND = StatusCode.BAD_REQUEST at hs
        exact absurd hs (by decide)
      | some content =>
        rw [ho] at hs
        simp only at hs
        split_ifs at hs <;>
          (change StatusCode.OK = StatusCode.BAD_REQUEST at hs; exact absurd hs (by decide))
    · intro h
      unfold RouteHandler.handle_static_file
      simp only [if_pos (hfind.2 h)]
      rfl

/-- C7, at the path `/static/../etc/passwd` with a file system in which every
file opens. -/
theorem handle_static_file_traversal_witness :
    RouteHandler.handle_static_file { time := 0, open_file := fun _ => some (lit "secret") }
        { HTTPRequest.ctor with method_ := Method.GET, path_ := lit "/static/../etc/passwd" }
      = HTTPResponse.bad_request (lit "Invalid path") :=
  (handle_static_file_traversal { time := 0, open_file := fun _ => some (lit "secret") }
    { HTTPRequest.ctor with method_ := Method.GET, path_ := lit "/static/../etc/passwd" }
    (by decide)).2.1 (by decide)

/-- C6: dispatching `GET /static/../etc/passwd` through the default bindings.
The only static binding is the exact pattern `/static`, so no binding matches
and the response is the 404 `Route not found`, not a 400; the static file
handler, had the request reached it, returns the 400 `Invalid path`. -/
theorem dispatch_static_traversal (env : Env) :
    (HTTPRequest.parse HTTPRequest.ctor (lit "GET /static/../etc/passwd HTTP/1.1\r\n\r\n")).2
      = { HTTPRequest.ctor with method_ := Method.GET, path_ := lit "/static/../etc/passwd",
                                version_ := lit "HTTP/1.1" } ∧
    RouteHandler.handle_request (RouteHandler.ctor env)
        { HTTPRequest.ctor with method_ := Method.GET, path_ := lit "/static/../etc/passwd",
                                version_ := lit "HTTP/1.1" }
      = some (HTTPResponse.not_found (lit "Route not found: /static/../etc/passwd")) ∧
    (HTTPResponse.not_found (lit "Route not found: /static/../etc/passwd")).status_code_.code
      = 404 ∧
    RouteHandler.handle_static_file env
        { HTTPRequest.ctor with method_ := Method.GET, path_ := lit "/static/../etc/passwd",
                                version_ := lit "HTTP/1.1" }
      = HTTPResponse.bad_request (lit "Invalid path") :=
  ⟨by decide, rfl, rfl, rfl⟩

/-! ### The response builder -/

theorem str_lt_irrefl : ∀ a : Str, str_lt a a = false
  | [] => rfl
  | c :: cs => by
    simp only [str_lt, lt_self_iff_false, if_false]
    exact str_lt_irrefl cs

theorem foldl_append_lines {α : Type} (line : α → Str) (l : List α) (out : Str) :
    l.foldl (fun out x => out ++ line x) out = out ++ (l.map line).flatten := by
  induction l generalizing out with
  | nil => simp
  | cons x xs ih => simp [ih]

theorem ordered_keys_nodup (l : List (Str × Str))
    (h : l.Pairwise (fun a b => str_lt a.1 b.1 = true)) : (l.map Prod.fst).Nodup := by
  unfold List.Nodup
  rw [List.pairwise_map]
  refine h.imp ?_
  intro a b hab heq
  rw [heq, str_lt_irrefl] at hab
  exact Bool.noConfusion hab

/-- C8: the text of a response is the status line `HTTP/1.1 <code> <message>`
with the decimal status code and the message of the fixed table, then one line
`<name>: <value>` for every header in the iteration order of the header map,
then an empty line, then the body, every line ending in CR LF; the iteration
order is strictly ascending in the header name, so every name occurs once. -/
theorem to_string_format (r : HTTPResponse) :
    r.to_string
      = lit "HTTP/1.1 " ++ to_string_int r.status_code_.code ++ lit " "
          ++ HTTPResponse.get_status_message r.status_code_ ++ lit "\r\n"
          ++ (r.headers_.entries.map
                (fun header => header.1 ++ lit ": " ++ header.2 ++ lit "\r\n")).flatten
          ++ lit "\r\n" ++ r.body_ ∧
    r.headers_.entries.Pairwise (fun a b => str_lt a.1 b.1 = true) ∧
    (r.headers_.entries.map Prod.fst).Nodup ∧
    (to_string_int 200 = lit "200" ∧ to_string_int 404 = lit "404") ∧
    (HTTPResponse.get_status_message ⟨200⟩ = lit "OK" ∧
     HTTPResponse.get_status_message ⟨201⟩ = lit "Created" ∧
     HTTPResponse.get_status_message ⟨204⟩ = lit "No Content" ∧
     HTTPResponse.get_status_message ⟨400⟩ = lit "Bad Request" ∧
     HTTPResponse.get_status_message ⟨404⟩ = lit "Not Found" ∧
     HTTPResponse.get_status_message ⟨405⟩ = lit "Method Not Allowed" ∧
     HTTPResponse.get_status_message ⟨500⟩ = lit "Internal Server Error" ∧
     HTTPResponse.get_status_message ⟨501⟩ = lit "Not Implemented") := by
  refine ⟨?_, r.headers_.ordered, ordered_keys_nodup _ r.headers_.ordered, by decide, by decide⟩
  unfold HTTPResponse.to_string HTTPResponse.status_code_to_string
  have h := foldl_append_lines
    (fun header : Str × Str => header.1 ++ lit ": " ++ header.2 ++ lit "\r\n")
    r.headers_.entries
    ([] ++ lit "HTTP/1.1 " ++ to_string_int r.status_code_.code ++ lit " "
      ++ HTTPResponse.get_status_message r.status_code_ ++ lit "\r\n")
  simp only [List.append_assoc, List.nil_append] at h
  by_cases hb : r.body_ = []
  · simp only [hb, ne_eq, not_true_eq_false, if_false, List.append_assoc, List.nil_append,
      List.append_nil]
    rw [h]
    simp only [List.append_assoc]
  · simp only [hb, ne_eq, not_false_eq_true, if_true, List.append_assoc, List.nil_append]
    rw [h]
    simp only [List.append_assoc]

/-- C8, at the response of `not_found` with the body `gone`: the three headers
come out in the order `Connection`, `Content-Type`, `Server`. -/
theorem to_string_format_witness :
    (HTTPResponse.not_found (lit "gone")).to_string
      = lit ("HTTP/1.1 404 Not Found\r\nConnection: close\r\n"
          ++ "Content-Type: text/plain; charset=utf-8\r\nServer: C++ HTTP Server\r\n\r\ngone") := by
  rw [(to_string_format (HTTPResponse.not_found (lit "gone"))).1]
  decide

/-! ### Positions and trimming -/

theorem index_from_eq (p : Char → Bool) :
    ∀ (s : Str) (k : Nat), index_from p s k =
      if s.any p then some (k + (s.takeWhile (fun x => !p x)).length) else none
  | [], k => by simp [index_from]
  | c :: cs, k => by
    cases h : p c with
    | true => simp [index_from, h]
    | false =>
      simp only [index_from, h, List.any_cons, List.takeWhile_cons, Bool.false_or,
        Bool.not_false, if_true, List.length_cons, Bool.false_eq_true, if_false]
      rw [index_from_eq p cs (k + 1)]
      by_cases ha : cs.any p = true
      · simp only [ha, if_true, Option.some.injEq]
        omega
      · simp [ha]

theorem takeWhile_length_le (q : Char → Bool) (s : Str) :
    (s.takeWhile q).length ≤ s.length := by
  have h := List.takeWhile_append_dropWhile q s
  have h2 : s.length = (s.takeWhile q).length + (s.dropWhile q).length := by
    rw [← List.length_append, h]
  omega

theorem take_takeWhile_length (q : Char → Bool) (s : Str) :
    s.take (s.takeWhile q).length = s.takeWhile q := by
  have h := List.take_left (s.takeWhile q) (s.dropWhile q)
  rw [List.takeWhile_append_dropWhile] at h
  exact h

theorem drop_takeWhile_length (q : Char → Bool) (s : Str) :
    s.drop (s.takeWhile q).length = s.dropWhile q := by
  have h := List.drop_left (s.takeWhile q) (s.dropWhile q)
  rw [List.takeWhile_append_dropWhile] at h
  exact h

theorem takeWhile_ne_length_lt (c : Char) :
    ∀ s : Str, c ∈ s → (s.takeWhile (fun x => x != c)).length < s.length
  | [], h => by simp at h
  | d :: ds, h => by
    by_cases hd : d = c
    · simp [List.takeWhile_cons, hd]
    · have hc : c ∈ ds := by
        rcases List.mem_cons.1 h with h1 | h1
        · exact absurd h1.symm hd
        · exact h1
      have ih := takeWhile_ne_length_lt c ds hc
      simp [List.takeWhile_cons, hd, ih]

theorem drop_npos (s : Str) (h : s.length < size_mod) : s.drop npos = [] := by
  apply List.drop_eq_nil_of_le
  unfold size_mod at h
  unfold npos
  omega

/-- The position of the first occurrence of a character: the length of the part
before it, or `npos` when there is none. -/
theorem find_char_eq (s : Str) (c : Char) (hlen : s.length < size_mod) :
    find_char s c =
      if c ∈ s then (s.takeWhile (fun x => x != c)).length else npos := by
  unfold find_char
  rw [index_from_eq]
  have hany : (s.any (fun x => x == c) = true) ↔ c ∈ s := by
    simp [List.any_eq_true]
  by_cases hc : c ∈ s
  · rw [if_pos (hany.2 hc), if_pos hc]
    have hle := takeWhile_length_le (fun x => !(x == c)) s
    simp only [pos_result, Nat.zero_add]
    rw [Nat.mod_eq_of_lt (by omega)]
    rfl
  · rw [if_neg (fun h => hc (hany.1 h)), if_neg hc]
    rfl

theorem find_char_ne_npos (s : Str) (c : Char) (hlen : s.length < size_mod) :
    find_char s c ≠ npos ↔ c ∈ s := by
  rw [find_char_eq s c hlen]
  by_cases hc : c ∈ s
  · simp only [if_pos hc, hc, iff_true]
    have hle := takeWhile_ne_length_lt c s hc
    intro heq
    rw [if_pos trivial] at heq
    rw [heq] at hle
    unfold size_mod at hlen
    unfold npos at hle
    omega
  · simp [hc]

theorem blank_test (x : Char) : (!(lit " \t").contains x) = !is_blank x := by
  simp only [lit, is_blank, List.contains, List.elem]
  cases x == ' ' <;> cases x == '\t' <;> rfl

theorem rtrim_cons (c : Char) (cs : Str) :
    rtrim (c :: cs)
      = if rtrim cs = [] then (if is_blank c then [] else [c]) else c :: rtrim cs := by
  unfold rtrim
  rw [List.reverse_cons, List.dropWhile_append]
  by_cases h : List.dropWhile is_blank cs.reverse = []
  · simp [h, List.dropWhile_cons]
    split_ifs <;> simp
  · simp [h]

theorem last_index_from_blank :
    ∀ (s : Str) (i : Nat),
      match last_index_from (fun x => !(lit " \t").contains x) s i with
      | some j => i ≤ j ∧ j < i + s.length ∧ s.take (j - i + 1) = rtrim s
      | none => rtrim s = []
  | [], i => by simp [last_index_from, rtrim]
  | c :: cs, i => by
    have ih := last_index_from_blank cs (i + 1)
    simp only [last_index_from]
    cases hl : last_index_from (fun x => !(lit " \t").contains x) cs (i + 1) with
    | some j =>
      rw [hl] at ih
      obtain ⟨h1, h2, h3⟩ := ih
      have hne : rtrim cs ≠ [] := by
        rw [← h3]
        cases cs with
        | nil => simp at h2; omega
        | cons d ds => simp
      simp only [rtrim_cons, if_neg hne, List.length_cons]
      refine ⟨by omega, by omega, ?_⟩
      have e : j - i + 1 = (j - (i + 1) + 1) + 1 := by omega
      rw [e, List.take_succ_cons, h3]
    | none =>
      rw [hl] at ih
      simp only [rtrim_cons, if_pos ih, blank_test]
      cases hb : is_blank c with
      | true => simp
      | false => simp

theorem erase_first_not_of (s : Str) (hlen : s.length < size_mod) :
    erase s 0 (find_first_not_of s (lit " \t")) = s.dropWhile is_blank := by
  unfold erase find_first_not_of
  rw [index_from_eq]
  have hfun : (fun x => !(fun x => !(lit " \t").contains x) x) = is_blank := by
    funext x
    simp only [blank_test, Bool.not_not]
  rw [hfun]
  simp only [List.take_zero, List.nil_append, List.drop_zero]
  by_cases ha : s.any (fun x => !(lit " \t").contains x) = true
  · rw [if_pos ha]
    have hle := takeWhile_length_le is_blank s
    simp only [pos_result, Nat.zero_add]
    rw [Nat.mod_eq_of_lt (by omega)]
    exact drop_takeWhile_length _ _
  · rw [if_neg ha]
    simp only [pos_result]
    rw [drop_npos s hlen]
    symm
    rw [List.dropWhile_eq_nil_iff]
    intro x hx
    by_contra hb
    apply ha
    rw [List.any_eq_true]
    exact ⟨x, hx, by rw [blank_test]; simpa using hb⟩

theorem erase_last_not_of (s : Str) (hlen : s.length < size_mod) :
    erase s ((find_last_not_of s (lit " \t") + 1) % size_mod) npos = rtrim s := by
  unfold erase find_last_not_of
  have h := last_index_from_blank s 0
  cases hl : last_index_from (fun x => !(lit " \t").contains x) s 0 with
  | some j =>
    rw [hl] at h
    obtain ⟨_, h2, h3⟩ := h
    simp only [pos_result]
    have e1 : (j % size_mod + 1) % size_mod = j + 1 := by
      unfold size_mod at hlen ⊢
      omega
    rw [e1]
    have e2 : List.drop npos (List.drop (j + 1) s) = [] := by
      apply List.drop_eq_nil_of_le
      simp only [List.length_drop]
      unfold size_mod at hlen
      unfold npos
      omega
    rw [e2, List.append_nil, ← h3]
    simp
  | none =>
    rw [hl] at h
    simp only [pos_result]
    have e1 : (npos + 1) % size_mod = 0 := by decide
    rw [e1, h]
    simp [drop_npos s hlen]

theorem dropWhile_length_le (q : Char → Bool) (s : Str) :
    (s.dropWhile q).length ≤ s.length := by
  have h := List.takeWhile_append_dropWhile q s
  have h2 : s.length = (s.takeWhile q).length + (s.dropWhile q).length := by
    rw [← List.length_append, h]
  omega

/-- The four `erase` calls of `parse_headers` remove the leading and the
trailing spaces and tabs. -/
theorem erase_both (s : Str) (hlen : s.length < size_mod) :
    erase (erase s 0 (find_first_not_of s (lit " \t")))
        ((find_last_not_of (erase s 0 (find_first_not_of s (lit " \t"))) (lit " \t") + 1)
          % size_mod) npos
      = trim_blanks s := by
  rw [erase_first_not_of s hlen]
  have h := dropWhile_length_le is_blank s
  rw [erase_last_not_of _ (by omega)]
  rfl

/-! ### Header lines -/

/-- One line of the header section: a line with a colon assigns the trimmed
value to the trimmed name, a line without colon changes nothing. -/
theorem parse_header_line_eq (req : HTTPRequest) (line : Str) (hlen : line.length < size_mod) :
    HTTPRequest.parse_header_line req line =
      match header_of_line line with
      | some header => { req with headers_ := req.headers_.set header.1 header.2 }
      | none => req := by
  unfold HTTPRequest.parse_header_line header_of_line split_first
  by_cases hc : ':' ∈ line
  · have hne := (find_char_ne_npos line ':' hlen).2 hc
    have hpos := find_char_eq line ':' hlen
    rw [if_pos hc] at hpos
    have hlt := takeWhile_ne_length_lt ':' line hc
    have hname : substr line 0 (find_char line ':')
        = line.takeWhile (fun x => x != ':') := by
      rw [substr_zero, hpos]
      exact take_takeWhile_length _ _
    have hvalue : substr line ((find_char line ':' + 1) % size_mod) npos
        = (line.dropWhile (fun x => x != ':')).drop 1 := by
      rw [substr_npos _ _ hlen, hpos, Nat.mod_eq_of_lt (by omega), ← List.drop_drop,
        drop_takeWhile_length]
    have hl1 := takeWhile_length_le (fun x => x != ':') line
    have hl2 : ((line.dropWhile (fun x => x != ':')).drop 1).length ≤ line.length := by
      have := dropWhile_length_le (fun x => x != ':') line
      simp only [List.length_drop]
      omega
    simp only [if_pos hne, if_pos hc, Option.map_some', hname, hvalue]
    rw [erase_both _ (by omega), erase_both _ (by omega)]
  · have hne : ¬ find_char line ':' ≠ npos := fun h => hc ((find_char_ne_npos line ':' hlen).1 h)
    simp only [if_neg hne, if_neg hc, Option.map_none']

theorem parse_header_line_headers (req : HTTPRequest) (line : Str)
    (hlen : line.length < size_mod) :
    HTTPRequest.parse_header_line req line
      = { req with headers_ := set_all req.headers_ ([line].filterMap header_of_line) } := by
  rw [parse_header_line_eq req line hlen]
  cases h : header_of_line line with
  | none => simp [set_all, List.filterMap, h]
  | some header => simp [set_all, List.filterMap, h]

theorem set_all_append (m : StrMap) (a b : List (Str × Str)) :
    set_all m (a ++ b) = set_all (set_all m a) b := by
  simp [set_all, List.foldl_append]

theorem parse_headers_eq (req : HTTPRequest) (header_lines : List Str)
    (hlen : ∀ line ∈ header_lines, line.length < size_mod) :
    HTTPRequest.parse_headers req header_lines
      = { req with headers_ := set_all req.headers_ (header_lines.filterMap header_of_line) } := by
  induction header_lines generalizing req with
  | nil => simp [HTTPRequest.parse_headers, set_all]
  | cons line rest ih =>
    have h1 := parse_header_line_headers req line (hlen line (List.mem_cons_self _ _))
    have h2 := ih (HTTPRequest.parse_header_line req line)
      (fun l hl => hlen l (List.mem_cons_of_mem _ hl))
    unfold HTTPRequest.parse_headers at h2 ⊢
    rw [List.foldl_cons, h2, h1]
    have e : line :: rest = [line] ++ rest := rfl
    rw [e, List.filterMap_append, set_all_append]

theorem find_set_self (m : StrMap) (k v : Str) : (m.set k v).find k = some v := by
  unfold StrMap.find StrMap.set
  simp only
  induction m.entries with
  | nil => simp [insert_entry, List.find?, str_lt_irrefl]
  | cons e rest ih =>
    simp only [insert_entry]
    split_ifs with h1 h2
    · simp [List.find?, str_lt_irrefl]
    · simp only [List.find?, h2, Bool.not_true, Bool.false_and]
      exact ih
    · simp [List.find?, h1, h2]

theorem parse_query_param_headers (req : HTTPRequest) (param : Str) :
    (HTTPRequest.parse_query_param req param).headers_ = req.headers_ := by
  unfold HTTPRequest.parse_query_param
  simp only
  split_ifs <;> rfl

theorem parse_query_string_headers (req : HTTPRequest) (query_string : Str) :
    (HTTPRequest.parse_query_string req query_string).headers_ = req.headers_ := by
  unfold HTTPRequest.parse_query_string
  induction getlines '&' query_string generalizing req with
  | nil => rfl
  | cons p ps ih => rw [List.foldl_cons, ih, parse_query_param_headers]

theorem parse_request_line_headers (req : HTTPRequest) (line : Str) :
    (HTTPRequest.parse_request_line req line).headers_ = req.headers_ := by
  unfold HTTPRequest.parse_request_line
  cases extract_word line with
  | none => rfl
  | some p1 =>
    obtain ⟨method_str, s1⟩ := p1
    simp only
    cases extract_word s1 with
    | none => rfl
    | some p2 =>
      obtain ⟨path_str, s2⟩ := p2
      simp only
      cases extract_word s2 with
      | none => rfl
      | some p3 =>
        obtain ⟨version_str, s3⟩ := p3
        simp only
        split_ifs
        · rw [parse_query_string_headers]
        · rfl

theorem getlines_length_le (delim : Char) :
    ∀ (n : Nat) (stream : Str), stream.length ≤ n →
      ∀ line ∈ getlines delim stream, line.length ≤ stream.length
  | 0, stream, h, line, hl => by
    have hs : stream = [] := List.length_eq_zero.1 (Nat.le_zero.1 h)
    rw [hs, getlines_eq] at hl
    simp [getline] at hl
  | n + 1, stream, h, line, hl => by
    rw [getlines_eq] at hl
    cases hg : getline delim stream with
    | none =>
      rw [hg] at hl
      simp at hl
    | some p =>
      obtain ⟨first, rest⟩ := p
      rw [hg] at hl
      have hb := getline_length delim stream first rest hg
      rcases List.mem_cons.1 hl with h1 | h1
      · rw [h1]; omega
      · have := getlines_length_le delim n rest (by omega) line h1
        omega

theorem read_header_lines_length (bound : Nat) :
    ∀ (stream collected : List Str),
      (∀ line ∈ stream, line.length ≤ bound) → (∀ line ∈ collected, line.length ≤ bound) →
      ∀ line ∈ (HTTPRequest.read_header_lines stream collected).1, line.length ≤ bound
  | [], collected, _, hc => by
    simpa [HTTPRequest.read_header_lines] using hc
  | first :: rest, collected, hs, hc => by
    have hfirst := hs first (List.mem_cons_self _ _)
    have hrest : ∀ line ∈ rest, line.length ≤ bound :=
      fun l hl => hs l (List.mem_cons_of_mem _ hl)
    simp only [HTTPRequest.read_header_lines]
    split_ifs with h1 h2 h3 h4
    · apply read_header_lines_length bound rest _ hrest
      intro l hl
      rcases List.mem_append.1 hl with h5 | h5
      · exact hc l h5
      · rw [List.mem_singleton.1 h5]
        simp only [List.length_dropLast]
        omega
    · exact read_header_lines_length bound rest _ hrest hc
    · apply read_header_lines_length bound rest _ hrest
      intro l hl
      rcases List.mem_append.1 hl with h5 | h5
      · exact hc l h5
      · rw [List.mem_singleton.1 h5]
        exact hfirst
    · exact read_header_lines_length bound rest _ hrest hc
    · exact hc

theorem header_section_length (raw_request : Str) :
    ∀ line ∈ header_section raw_request, line.length ≤ raw_request.length := by
  unfold header_section
  apply read_header_lines_length
  · intro line hl
    exact getlines_length_le '\n' raw_request.length raw_request (le_refl _) line
      (List.mem_of_mem_tail hl)
  · intro line hl
    simp at hl

/-- The headers after `parse`: the assignments of the header lines, in order,
on top of the headers the request object had. -/
theorem parse_stores_headers (req : HTTPRequest) (raw_request : Str)
    (hne : raw_request ≠ []) (hlen : raw_request.length < size_mod) :
    (HTTPRequest.parse req raw_request).2.headers_
      = set_all req.headers_ ((header_section raw_request).filterMap header_of_line) := by
  have hsec := header_section_length raw_request
  have hg := getlines_cons '\n' raw_request hne
  unfold header_section at hsec ⊢
  unfold HTTPRequest.parse
  rw [hg] at hsec
  rw [if_neg hne, hg]
  simp only [List.tail_cons] at hsec ⊢
  generalize HTTPRequest.read_header_lines
    (getlines '\n' (List.drop 1 (List.dropWhile (fun c => c != '\n') raw_request))) [] = p
    at hsec ⊢
  obtain ⟨header_lines, stream⟩ := p
  simp only at hsec ⊢
  have hp := parse_headers_eq
    (HTTPRequest.parse_request_line req (List.takeWhile (fun c => c != '\n') raw_request))
    header_lines (fun l hl => lt_of_le_of_lt (hsec l hl) hlen)
  split_ifs
  · simp only [hp, parse_request_line_headers]
  · simp only [hp, parse_request_line_headers]

/-- C9: every line of the header section is split at its first `:` and the name
and the value stored are the two sides without their leading and trailing spaces
and tabs; a line without `:` adds no header. Stated for `parse_headers` on any
lines, for the headers after `parse`, for the lookup after one line, and at the
line `X-Test :  value  `. -/
theorem header_lines_split_and_trimmed :
    (∀ (req : HTTPRequest) (header_lines : List Str),
      (∀ line ∈ header_lines, line.length < size_mod) →
      HTTPRequest.parse_headers req header_lines
        = { req with
            headers_ := set_all req.headers_ (header_lines.filterMap header_of_line) }) ∧
    (∀ (req : HTTPRequest) (raw_request : Str),
      raw_request ≠ [] → raw_request.length < size_mod →
      (HTTPRequest.parse req raw_request).2.headers_
        = set_all req.headers_ ((header_section raw_request).filterMap header_of_line)) ∧
    (∀ (req : HTTPRequest) (line name value : Str),
      line.length < size_mod → header_of_line line = some (name, value) →
      (HTTPRequest.parse_header_line req line).headers_.find name = some value) ∧
    (∀ (req : HTTPRequest) (line : Str),
      line.length < size_mod → ':' ∉ line → HTTPRequest.parse_header_line req line = req) ∧
    header_of_line (lit "X-Test :  value  ") = some (lit "X-Test", lit "value") := by
  refine ⟨parse_headers_eq, parse_stores_headers, ?_, ?_, by decide⟩
  · intro req line name value hlen hh
    rw [parse_header_line_eq req line hlen, hh]
    exact find_set_self _ _ _
  · intro req line hlen hc
    rw [parse_header_line_eq req line hlen]
    simp [header_of_line, split_first, hc]

/-- C9, at a request with the header line `X-Test :  value  `, a line with inner
blanks and a line without colon. -/
theorem header_lines_split_and_trimmed_witness :
    (HTTPRequest.parse HTTPRequest.ctor
        (lit "GET / HTTP/1.1\r\nX-Test :  value  \r\nnocolon\r\nA:\tb  c \r\n\r\n")).2.headers_
      = set_all StrMap.empty [(lit "X-Test", lit "value"), (lit "A", lit "b  c")] :=
  (header_lines_split_and_trimmed.2.1 HTTPRequest.ctor
    (lit "GET / HTTP/1.1\r\nX-Test :  value  \r\nnocolon\r\nA:\tb  c \r\n\r\n")
    (by decide) (by decide)).trans (by decide)

/-! ### The query string -/

theorem split_on_ne_nil (c : Char) : ∀ s : Str, split_on c s ≠ []
  | [] => by simp [split_on]
  | x :: xs => by
    simp only [split_on]
    split_ifs
    · simp
    · cases split_on c xs <;> simp

theorem split_on_not_mem (c : Char) : ∀ s : Str, c ∉ s → split_on c s = [s]
  | [], _ => rfl
  | x :: xs, h => by
    have hx : ¬ x = c := fun e => h (by rw [e]; exact List.mem_cons_self _ _)
    have hxs : c ∉ xs := fun e => h (List.mem_cons_of_mem _ e)
    simp only [split_on, if_neg hx, split_on_not_mem c xs hxs]

theorem split_on_mem (c : Char) :
    ∀ s : Str, c ∈ s →
      split_on c s = s.takeWhile (fun x => x != c)
        :: split_on c ((s.dropWhile (fun x => x != c)).drop 1)
  | [], h => by simp at h
  | x :: xs, h => by
    by_cases hx : x = c
    · simp [split_on, hx, List.takeWhile_cons, List.dropWhile_cons]
    · have hxs : c ∈ xs := by
        rcases List.mem_cons.1 h with h1 | h1
        · exact absurd h1.symm hx
        · exact h1
      simp [split_on, hx, List.takeWhile_cons, List.dropWhile_cons, split_on_mem c xs hxs]

theorem dropWhile_ne_of_not_mem (c : Char) (s : Str) (h : c ∉ s) :
    s.dropWhile (fun x => x != c) = [] ∧ s.takeWhile (fun x => x != c) = s := by
  have h1 : ∀ x ∈ s, (x != c) = true := by
    intro x hx
    simp only [bne_iff_ne, ne_eq]
    intro e
    exact h (by rw [← e]; exact hx)
  exact ⟨List.dropWhile_eq_nil_iff.2 h1, List.takeWhile_eq_self_iff.2 h1⟩

/-- The segments read with `getline` are the pieces between the delimiters,
except that a last piece that is empty is not read. -/
theorem split_on_getlines (c : Char) :
    ∀ (n : Nat) (s : Str), s.length ≤ n →
      split_on c s = getlines c s ∨ split_on c s = getlines c s ++ [[]]
  | 0, s, h => by
    have hs : s = [] := List.length_eq_zero.1 (Nat.le_zero.1 h)
    right
    rw [hs, getlines_eq]
    simp [getline, split_on]
  | n + 1, s, h => by
    by_cases hs : s = []
    · right
      rw [hs, getlines_eq]
      simp [getline, split_on]
    · rw [getlines_cons c s hs]
      by_cases hc : c ∈ s
      · rw [split_on_mem c s hc]
        have hlt := takeWhile_ne_length_lt c s hc
        have hd : ((s.dropWhile (fun x => x != c)).drop 1).length ≤ n := by
          have := dropWhile_length_le (fun x => x != c) s
          have h2 : s.length = (s.takeWhile (fun x => x != c)).length
              + (s.dropWhile (fun x => x != c)).length := by
            rw [← List.length_append, List.takeWhile_append_dropWhile]
          simp only [List.length_drop]
          omega
        rcases split_on_getlines c n _ hd with h1 | h1
        · left; rw [h1]
        · right; rw [h1]; rfl
      · left
        obtain ⟨h1, h2⟩ := dropWhile_ne_of_not_mem c s hc
        rw [split_on_not_mem c s hc, h1, h2, List.drop_nil, getlines_eq]
        simp [getline]

theorem getlines_pairs (query_string : Str) :
    (getlines '&' query_string).filterMap (split_first '=') = query_pairs query_string := by
  unfold query_pairs
  rcases split_on_getlines '&' query_string.length query_string (le_refl _) with h | h
  · rw [h]
  · rw [h, List.filterMap_append]
    simp [List.filterMap, split_first]

theorem parse_query_param_eq (req : HTTPRequest) (param : Str) (hlen : param.length < size_mod) :
    HTTPRequest.parse_query_param req param
      = { req with
          query_params_ := set_all req.query_params_ ([param].filterMap (split_first '=')) } := by
  unfold HTTPRequest.parse_query_param split_first
  by_cases hc : '=' ∈ param
  · have hne := (find_char_ne_npos param '=' hlen).2 hc
    have hpos := find_char_eq param '=' hlen
    rw [if_pos hc] at hpos
    have hlt := takeWhile_ne_length_lt '=' param hc
    have hname : substr param 0 (find_char param '=')
        = param.takeWhile (fun x => x != '=') := by
      rw [substr_zero, hpos]
      exact take_takeWhile_length _ _
    have hvalue : substr param ((find_char param '=' + 1) % size_mod) npos
        = (param.dropWhile (fun x => x != '=')).drop 1 := by
      rw [substr_npos _ _ hlen, hpos, Nat.mod_eq_of_lt (by omega), ← List.drop_drop,
        drop_takeWhile_length]
    simp [if_pos hne, if_pos hc, hname, hvalue, set_all, List.filterMap]
  · have hne : ¬ find_char param '=' ≠ npos :=
      fun h => hc ((find_char_ne_npos param '=' hlen).1 h)
    simp [if_neg hne, if_neg hc, set_all, List.filterMap]

theorem foldl_parse_query_param (req : HTTPRequest) (params : List Str)
    (hlen : ∀ param ∈ params, param.length < size_mod) :
    params.foldl HTTPRequest.parse_query_param req
      = { req with
          query_params_ := set_all req.query_params_ (params.filterMap (split_first '=')) } := by
  induction params generalizing req with
  | nil => simp [set_all]
  | cons param rest ih =>
    have h1 := parse_query_param_eq req param (hlen param (List.mem_cons_self _ _))
    have h2 := ih (HTTPRequest.parse_query_param req param)
      (fun l hl => hlen l (List.mem_cons_of_mem _ hl))
    rw [List.foldl_cons, h2, h1]
    have e : param :: rest = [param] ++ rest := rfl
    rw [e, List.filterMap_append, set_all_append]

/-- `parse_query_string` assigns the pairs of the query string, in order. -/
theorem parse_query_string_eq (req : HTTPRequest) (query_string : Str)
    (hlen : query_string.length < size_mod) :
    HTTPRequest.parse_query_string req query_string
      = { req with
          query_params_ := set_all req.query_params_ (query_pairs query_string) } := by
  unfold HTTPRequest.parse_query_string
  rw [foldl_parse_query_param req _ (fun p hp =>
    lt_of_le_of_lt (getlines_length_le '&' query_string.length query_string (le_refl _) p hp)
      hlen), getlines_pairs]

/-! ### The tokens of the request line -/

theorem words_dropWhile : ∀ s : Str, words (s.dropWhile isspace) = words s
  | [] => rfl
  | c :: cs => by
    cases h : isspace c with
    | true => simp [List.dropWhile_cons, words, h, words_dropWhile cs]
    | false => simp [List.dropWhile_cons, h]

theorem words_head (c : Char) (hc : isspace c = false) :
    ∀ cs : Str, words (c :: cs)
      = (c :: cs.takeWhile (fun x => !isspace x))
        :: words (cs.dropWhile (fun x => !isspace x))
  | [] => by simp [words, hc]
  | d :: ds => by
    cases hd : isspace d with
    | true => simp [words, hc, hd, List.takeWhile_cons, List.dropWhile_cons]
    | false =>
      have ih := words_head d hd ds
      simp only [words, hc, hd, Bool.false_eq_true, if_false, List.takeWhile_cons,
        List.dropWhile_cons, Bool.not_false, if_true]
      simp only [words, hd, Bool.false_eq_true, if_false] at ih
      rw [ih]

/-- An extraction fails exactly on a line without tokens, and otherwise reads the
first token and leaves the other tokens. -/
theorem extract_word_words (s : Str) :
    match extract_word s with
    | none => words s = []
    | some (w, rest) => words s = w :: words rest ∧ w.length ≤ s.length
        ∧ rest.length ≤ s.length := by
  unfold extract_word
  simp only
  have hw := words_dropWhile s
  have hl := dropWhile_length_le isspace s
  cases hs : s.dropWhile isspace with
  | nil =>
    rw [hs] at hw
    simp only [if_true]
    rw [← hw]
    rfl
  | cons c cs =>
    rw [hs] at hw hl
    have hc : isspace c = false := by
      have := List.head_dropWhile_not isspace s (by rw [hs]; simp)
      simpa [hs] using this
    have h1 := takeWhile_length_le (fun x => !isspace x) (c :: cs)
    have h2 := dropWhile_length_le (fun x => !isspace x) (c :: cs)
    simp only [if_neg (List.cons_ne_nil c cs)]
    refine ⟨?_, by omega, by omega⟩
    rw [← hw, words_head c hc cs]
    simp [List.takeWhile_cons, List.dropWhile_cons, hc]

/-- On a line with at least three tokens the three extractions of
`parse_request_line` succeed and read the first three tokens. -/
theorem extract_three (line a b c : Str) (more : List Str)
    (h : words line = a :: b :: c :: more) :
    ∃ s1 s2 s3, extract_word line = some (a, s1) ∧ extract_word s1 = some (b, s2)
      ∧ extract_word s2 = some (c, s3) ∧ b.length ≤ line.length := by
  have e1 := extract_word_words line
  cases h1 : extract_word line with
  | none => rw [h1] at e1; rw [e1] at h; exact List.noConfusion h
  | some p1 =>
    obtain ⟨w1, s1⟩ := p1
    rw [h1] at e1
    obtain ⟨e1a, _, e1c⟩ := e1
    rw [e1a] at h
    obtain ⟨ha, h⟩ := List.cons.inj h
    have e2 := extract_word_words s1
    cases h2 : extract_word s1 with
    | none => rw [h2] at e2; rw [e2] at h; exact List.noConfusion h
    | some p2 =>
      obtain ⟨w2, s2⟩ := p2
      rw [h2] at e2
      obtain ⟨e2a, e2b, _⟩ := e2
      rw [e2a] at h
      obtain ⟨hb, h⟩ := List.cons.inj h
      have e3 := extract_word_words s2
      cases h3 : extract_word s2 with
      | none => rw [h3] at e3; rw [e3] at h; exact List.noConfusion h
      | some p3 =>
        obtain ⟨w3, s3⟩ := p3
        rw [h3] at e3
        obtain ⟨e3a, _, _⟩ := e3
        rw [e3a] at h
        obtain ⟨hc, _⟩ := List.cons.inj h
        subst ha
        subst hb
        subst hc
        exact ⟨s1, s2, s3, rfl, h2, h3, by omega⟩

/-! ### Lookups in a map -/

theorem char_eq_of_toNat (a b : Char) (h : a.toNat = b.toNat) : a = b := by
  rw [← Char.ofNat_toNat a, h, Char.ofNat_toNat]

theorem str_lt_connex : ∀ a b : Str, str_lt a b = false → str_lt b a = false → a = b
  | [], [], _, _ => rfl
  | [], _ :: _, h, _ => by simp [str_lt] at h
  | _ :: _, [], _, h => by simp [str_lt] at h
  | x :: xs, y :: ys, h1, h2 => by
    simp only [str_lt] at h1 h2
    split_ifs at h1 h2 with h3 h4
    have hxy : x = y := char_eq_of_toNat x y (by omega)
    rw [hxy, str_lt_connex xs ys h1 h2]

/-- Two keys are equivalent for the order of the map exactly when they are
equal. -/
theorem str_equiv_iff (a b : Str) : (!str_lt a b && !str_lt b a) = true ↔ a = b := by
  constructor
  · intro h
    simp only [Bool.and_eq_true, Bool.not_eq_true'] at h
    exact str_lt_connex a b h.1 h.2
  · intro h
    rw [h, str_lt_irrefl]
    rfl

theorem find_set_other (m : StrMap) (k v name : Str) (hne : k ≠ name) :
    (m.set k v).find name = m.find name := by
  unfold StrMap.find StrMap.set
  simp only
  have hk : (!str_lt k name && !str_lt name k) = false := by
    rw [Bool.eq_false_iff]
    exact fun h => hne ((str_equiv_iff k name).1 h)
  induction m.entries with
  | nil => simp [insert_entry, List.find?, hk]
  | cons e rest ih =>
    simp only [insert_entry]
    split_ifs with h1 h2
    · simp only [List.find?, hk]
    · simp only [List.find?]
      cases (!str_lt e.1 name && !str_lt name e.1) with
      | true => rfl
      | false => exact ih
    · have he : e.1 = k := by
        apply str_lt_connex
        · simpa using h2
        · simpa using h1
      simp only [List.find?, he, hk]

theorem set_all_snoc (m : StrMap) (pairs : List (Str × Str)) (pair : Str × Str) :
    set_all m (pairs ++ [pair]) = (set_all m pairs).set pair.1 pair.2 := by
  simp [set_all, List.foldl_append]

/-- After the assignments of a list of pairs a name has the value of the last
pair with that name, or the value it had when no pair has that name. -/
theorem find_set_all (m : StrMap) (pairs : List (Str × Str)) (name : Str) :
    (set_all m pairs).find name
      = match last_value pairs name with
        | some value => some value
        | none => m.find name := by
  induction pairs using List.reverseRecOn with
  | nil => simp [set_all, last_value]
  | append_singleton ps p ih =>
    rw [set_all_snoc]
    unfold last_value at ih ⊢
    rw [List.reverse_append, List.reverse_singleton, List.singleton_append, List.find?_cons]
    by_cases hp : p.1 = name
    · simp only [hp, beq_self_eq_true, Option.map_some']
      rw [← hp]
      exact find_set_self _ _ _
    · have hb : (p.1 == name) = false := by simpa using hp
      simp only [hb]
      rw [find_set_other _ _ _ _ hp]
      exact ih

/-- C10: for a request line with at least three tokens whose path token contains
`?`, the parsed path is the part of the token before the first `?`, and the
query parameters are the assignments, in order, of the name/value pairs got by
splitting the part after the first `?` on `&` and every segment at its first
`=`, segments without `=` dropped; so a name has the value of the last pair
with that name. -/
theorem request_line_query (req : HTTPRequest) (line method_tok path_tok version_tok : Str)
    (more : List Str)
    (hlen : line.length < size_mod)
    (htokens : words line = method_tok :: path_tok :: version_tok :: more)
    (hq : '?' ∈ path_tok) :
    ∃ path query_string : Str,
      split_first '?' path_tok = some (path, query_string) ∧
      (HTTPRequest.parse_request_line req line).path_ = path ∧
      (HTTPRequest.parse_request_line req line).query_params_
        = set_all req.query_params_ (query_pairs query_string) ∧
      ∀ name : Str,
        (HTTPRequest.parse_request_line req line).query_params_.find name
          = match last_value (query_pairs query_string) name with
            | some value => some value
            | none => req.query_params_.find name := by
  obtain ⟨s1, s2, s3, h1, h2, h3, hb⟩ :=
    extract_three line method_tok path_tok version_tok more htokens
  have hplen : path_tok.length < size_mod := lt_of_le_of_lt hb hlen
  have hne := (find_char_ne_npos path_tok '?' hplen).2 hq
  have hpos := find_char_eq path_tok '?' hplen
  rw [if_pos hq] at hpos
  have hlt := takeWhile_ne_length_lt '?' path_tok hq
  have hpath : substr path_tok 0 (find_char path_tok '?')
      = path_tok.takeWhile (fun x => x != '?') := by
    rw [substr_zero, hpos]
    exact take_takeWhile_length _ _
  have hquery : substr path_tok ((find_char path_tok '?' + 1) % size_mod) npos
      = (path_tok.dropWhile (fun x => x != '?')).drop 1 := by
    rw [substr_npos _ _ hplen, hpos, Nat.mod_eq_of_lt (by omega), ← List.drop_drop,
      drop_takeWhile_length]
  have hqlen : ((path_tok.dropWhile (fun x => x != '?')).drop 1).length < size_mod := by
    have := dropWhile_length_le (fun x => x != '?') path_tok
    simp only [List.length_drop]
    omega
  have hres : HTTPRequest.parse_request_line req line
      = { req with
          method_ := HTTPRequest.parse_method method_tok,
          path_ := path_tok.takeWhile (fun x => x != '?'),
          version_ := version_tok,
          query_params_ := set_all req.query_params_
            (query_pairs ((path_tok.dropWhile (fun x => x != '?')).drop 1)) } := by
    unfold HTTPRequest.parse_request_line
    rw [h1]
    simp only
    rw [h2]
    simp only
    rw [h3]
    simp only [if_pos hne, hpath, hquery]
    rw [parse_query_string_eq _ _ hqlen]
  refine ⟨path_tok.takeWhile (fun x => x != '?'),
    (path_tok.dropWhile (fun x => x != '?')).drop 1, ?_, ?_, ?_, ?_⟩
  · simp [split_first, hq]
  · rw [hres]
  · rw [hres]
  · intro name
    rw [hres]
    exact find_set_all _ _ _

/-- C10, at the request line `GET /echo?a=1&b=2 HTTP/1.1`: the path is `/echo`
and the query parameters are `a` with value `1` and `b` with value `2`. -/
theorem request_line_query_witness :
    (HTTPRequest.parse_request_line HTTPRequest.ctor (lit "GET /echo?a=1&b=2 HTTP/1.1")).path_
      = lit "/echo" ∧
    (HTTPRequest.parse_request_line HTTPRequest.ctor
        (lit "GET /echo?a=1&b=2 HTTP/1.1")).query_params_.entries
      = [(lit "a", lit "1"), (lit "b", lit "2")] := by
  obtain ⟨path, query_string, hs, hp, hq, _⟩ :=
    request_line_query HTTPRequest.ctor (lit "GET /echo?a=1&b=2 HTTP/1.1")
      (lit "GET") (lit "/echo?a=1&b=2") (lit "HTTP/1.1") [] (by decide) (by decide) (by decide)
  have hs2 : split_first '?' (lit "/echo?a=1&b=2") = some (lit "/echo", lit "a=1&b=2") := by
    decide
  rw [hs2] at hs
  simp only [Option.some.injEq, Prod.mk.injEq] at hs
  obtain ⟨e1, e2⟩ := hs
  subst e1
  subst e2
  refine ⟨hp, ?_⟩
  rw [hq]
  decide

/-! ### The body -/

theorem after_blank_line_fuel_enough :
    ∀ (n m : Nat) (text : Str), text.length ≤ n → text.length ≤ m →
      after_blank_line_fuel n text = after_blank_line_fuel m text
  | 0, 0, _, _, _ => rfl
  | 0, m + 1, text, h, _ => by
    have hs : text = [] := List.length_eq_zero.1 (Nat.le_zero.1 h)
    simp [after_blank_line_fuel, getline, hs]
  | n + 1, 0, text, _, h => by
    have hs : text = [] := List.length_eq_zero.1 (Nat.le_zero.1 h)
    simp [after_blank_line_fuel, getline, hs]
  | n + 1, m + 1, text, hn, hm => by
    simp only [after_blank_line_fuel]
    cases hg : getline '\n' text with
    | none => rfl
    | some p =>
      obtain ⟨line, rest⟩ := p
      have hl := (getline_length '\n' text line rest hg).2
      simp only
      rw [after_blank_line_fuel_enough n m rest (by omega) (by omega)]

/-- The text after the blank line is found by reading one line: it is what that
line leaves when the line is blank, and is searched in what it leaves
otherwise. -/
theorem after_blank_line_eq (text : Str) :
    after_blank_line text =
      match getline '\n' text with
      | none => []
      | some (line, rest) =>
        if line = lit "\r" ∨ line = [] then rest else after_blank_line rest := by
  unfold after_blank_line
  cases hs : text with
  | nil => simp [after_blank_line_fuel, getline]
  | cons c cs =>
    simp only [List.length_cons, after_blank_line_fuel]
    cases hg : getline '\n' (c :: cs) with
    | none => rfl
    | some p =>
      obtain ⟨line, rest⟩ := p
      have hl := (getline_length '\n' (c :: cs) line rest hg).2
      simp only [List.length_cons] at hl
      simp only
      rw [after_blank_line_fuel_enough cs.length rest.length rest (by omega) (le_refl _)]

theorem after_blank_line_length :
    ∀ (n : Nat) (text : Str), text.length ≤ n → (after_blank_line text).length ≤ text.length
  | 0, text, h => by
    have hs : text = [] := List.length_eq_zero.1 (Nat.le_zero.1 h)
    rw [hs]
    rfl
  | n + 1, text, h => by
    rw [after_blank_line_eq]
    cases hg : getline '\n' text with
    | none => simp
    | some p =>
      obtain ⟨line, rest⟩ := p
      have hl := (getline_length '\n' text line rest hg).2
      simp only
      split_ifs
      · omega
      · have := after_blank_line_length n rest (by omega)
        omega

/-- The first loop of `parse` leaves in the stream the lines of the text after
the blank line. -/
theorem read_header_lines_rest :
    ∀ (n : Nat) (text : Str) (collected : List Str), text.length ≤ n →
      (HTTPRequest.read_header_lines (getlines '\n' text) collected).2
        = getlines '\n' (after_blank_line text)
  | 0, text, collected, h => by
    have hs : text = [] := List.length_eq_zero.1 (Nat.le_zero.1 h)
    rw [hs]
    rfl
  | n + 1, text, collected, h => by
    rw [getlines_eq, after_blank_line_eq]
    cases hg : getline '\n' text with
    | none => rfl
    | some p =>
      obtain ⟨line, rest⟩ := p
      have hl := (getline_length '\n' text line rest hg).2
      simp only [HTTPRequest.read_header_lines]
      by_cases hb : line = lit "\r" ∨ line = []
      · have hb2 : ¬ (line ≠ lit "\r" ∧ line ≠ []) := by
          intro hc
          rcases hb with hb | hb
          · exact hc.1 hb
          · exact hc.2 hb
        rw [if_neg hb2, if_pos hb]
      · have hb2 : line ≠ lit "\r" ∧ line ≠ [] :=
          ⟨fun hc => hb (Or.inl hc), fun hc => hb (Or.inr hc)⟩
        rw [if_pos hb2, if_neg hb]
        exact read_header_lines_rest n rest _ (by omega)

theorem read_body_acc (stream : List Str) (body_part : Str) :
    HTTPRequest.read_body stream body_part = body_part ++ HTTPRequest.read_body stream [] := by
  induction stream generalizing body_part with
  | nil => simp [HTTPRequest.read_body]
  | cons line rest ih =>
    simp only [HTTPRequest.read_body, List.nil_append]
    rw [ih (body_part ++ (line ++ lit "\n")), ih (line ++ lit "\n")]
    simp only [List.append_assoc]

theorem read_body_cons (line : Str) (stream : List Str) :
    HTTPRequest.read_body (line :: stream) []
      = line ++ lit "\n" ++ HTTPRequest.read_body stream [] := by
  simp only [HTTPRequest.read_body, List.nil_append]
  rw [read_body_acc]

/-- The lines of a text, each followed by a newline, give the text back, with a
newline added when the text does not end with one. -/
theorem read_body_getlines :
    ∀ (n : Nat) (text : Str), text.length ≤ n →
      HTTPRequest.read_body (getlines '\n' text) []
        = if text = [] ∨ text.getLast? = some '\n' then text else text ++ lit "\n"
  | 0, text, h => by
    have hs : text = [] := List.length_eq_zero.1 (Nat.le_zero.1 h)
    rw [hs]
    rfl
  | n + 1, text, h => by
    by_cases hs : text = []
    · rw [hs]
      rfl
    · rw [getlines_cons '\n' text hs, read_body_cons]
      have hsplit := List.takeWhile_append_dropWhile (fun c => c != '\n') text
      by_cases hc : '\n' ∈ text
      · have hlt := takeWhile_ne_length_lt '\n' text hc
        have hlen : text.length = (text.takeWhile (fun c => c != '\n')).length
            + (text.dropWhile (fun c => c != '\n')).length := by
          rw [← List.length_append, hsplit]
        cases hd : text.dropWhile (fun c => c != '\n') with
        | nil =>
          rw [hd] at hlen
          simp only [List.length_nil] at hlen
          omega
        | cons d ds =>
          have hdn : d = '\n' := by
            have := List.head_dropWhile_not (fun c => c != '\n') text (by rw [hd]; simp)
            simpa [hd] using this
          rw [hd] at hlen
          simp only [List.length_cons] at hlen
          have ih := read_body_getlines n ds (by omega)
          simp only [List.drop_succ_cons, List.drop_zero]
          rw [ih]
          have htext : text = text.takeWhile (fun c => c != '\n') ++ '\n' :: ds := by
            rw [hdn] at hd
            rw [← hd]
            exact hsplit.symm
          have hlast : text.getLast? = if ds = [] then some '\n' else ds.getLast? := by
            nth_rewrite 1 [htext]
            cases ds with
            | nil => simp
            | cons e es =>
              have e1 : text.takeWhile (fun c => c != '\n') ++ '\n' :: e :: es
                  = (text.takeWhile (fun c => c != '\n') ++ ['\n']) ++ (e :: es) := by simp
              rw [e1, List.getLast?_append_of_ne_nil _ (List.cons_ne_nil e es)]
              simp
          rw [hlast]
          by_cases hds : ds = []
          · simp only [hds, true_or, if_true, or_true, List.append_nil, hs, false_or]
            nth_rewrite 2 [htext]
            rw [hds]
            rfl
          · simp only [hds, false_or, if_false, hs]
            split_ifs with hl
            · nth_rewrite 2 [htext]
              simp [lit]
            · nth_rewrite 2 [htext]
              simp [lit]
      · obtain ⟨h1, h2⟩ := dropWhile_ne_of_not_mem '\n' text hc
        have hl : ¬ text.getLast? = some '\n' := by
          intro hl
          exact hc (List.mem_of_getLast?_eq_some hl)
        rw [h1, h2, List.drop_nil, getlines_eq]
        simp [getline, HTTPRequest.read_body, hs, hl]

theorem parse_header_line_frame (req : HTTPRequest) (line : Str) :
    HTTPRequest.parse_header_line req line
      = { req with headers_ := (HTTPRequest.parse_header_line req line).headers_ } := by
  unfold HTTPRequest.parse_header_line
  simp only
  split_ifs <;> rfl

/-- `parse_headers` changes no field but the headers. -/
theorem parse_headers_frame (req : HTTPRequest) (header_lines : List Str) :
    HTTPRequest.parse_headers req header_lines
      = { req with headers_ := (HTTPRequest.parse_headers req header_lines).headers_ } := by
  unfold HTTPRequest.parse_headers
  induction header_lines generalizing req with
  | nil => rfl
  | cons line rest ih =>
    rw [List.foldl_cons, ih (HTTPRequest.parse_header_line req line)]
    generalize (List.foldl HTTPRequest.parse_header_line
      (HTTPRequest.parse_header_line req line) rest).headers_ = h
    rw [parse_header_line_frame]

/-- The request object after `parse` of an input that is not empty: the request
line is parsed from the first line, the headers from the header section, and the
body is the text joined from the lines after the blank line, without its last
character. -/
theorem parse_shape (req : HTTPRequest) (raw_request : Str) (hne : raw_request ≠ []) :
    HTTPRequest.parse req raw_request
      = (true,
          { HTTPRequest.parse_request_line req
              (raw_request.takeWhile (fun c => c != '\n')) with
            headers_ := (HTTPRequest.parse_headers
              (HTTPRequest.parse_request_line req (raw_request.takeWhile (fun c => c != '\n')))
              (header_section raw_request)).headers_,
            body_ :=
              if HTTPRequest.read_body (getlines '\n' (body_text raw_request)) [] ≠ [] then
                substr (HTTPRequest.read_body (getlines '\n' (body_text raw_request)) []) 0
                  (((HTTPRequest.read_body (getlines '\n' (body_text raw_request)) []).length
                    + npos) % size_mod)
              else
                (HTTPRequest.parse_request_line req
                  (raw_request.takeWhile (fun c => c != '\n'))).body_ }) := by
  have hg := getlines_cons '\n' raw_request hne
  have hrest := read_header_lines_rest
    ((raw_request.dropWhile (fun c => c != '\n')).drop 1).length
    ((raw_request.dropWhile (fun c => c != '\n')).drop 1) [] (le_refl _)
  unfold header_section body_text
  unfold HTTPRequest.parse
  rw [if_neg hne, hg]
  simp only [List.tail_cons]
  rw [← hrest]
  generalize HTTPRequest.read_header_lines
    (getlines '\n' (List.drop 1 (List.dropWhile (fun c => c != '\n') raw_request))) [] = p
  obtain ⟨header_lines, stream⟩ := p
  simp only
  rw [parse_headers_frame]
  split_ifs <;> rfl

theorem parse_query_param_frame (req : HTTPRequest) (param : Str) :
    HTTPRequest.parse_query_param req param
      = { req with query_params_ := (HTTPRequest.parse_query_param req param).query_params_ } := by
  unfold HTTPRequest.parse_query_param
  simp only
  split_ifs <;> rfl

/-- `parse_query_string` changes no field but the query parameters. -/
theorem parse_query_string_frame (req : HTTPRequest) (query_string : Str) :
    HTTPRequest.parse_query_string req query_string
      = { req with
          query_params_ := (HTTPRequest.parse_query_string req query_string).query_params_ } := by
  unfold HTTPRequest.parse_query_string
  induction getlines '&' query_string generalizing req with
  | nil => rfl
  | cons p ps ih =>
    rw [List.foldl_cons, ih (HTTPRequest.parse_query_param req p)]
    generalize (List.foldl HTTPRequest.parse_query_param
      (HTTPRequest.parse_query_param req p) ps).query_params_ = q
    rw [parse_query_param_frame]

/-- `parse_request_line` changes neither the headers nor the body. -/
theorem parse_request_line_body (req : HTTPRequest) (line : Str) :
    (HTTPRequest.parse_request_line req line).body_ = req.body_ := by
  unfold HTTPRequest.parse_request_line
  cases extract_word line with
  | none => rfl
  | some p1 =>
    obtain ⟨method_str, s1⟩ := p1
    simp only
    cases extract_word s1 with
    | none => rfl
    | some p2 =>
      obtain ⟨path_str, s2⟩ := p2
      simp only
      cases extract_word s2 with
      | none => rfl
      | some p3 =>
        obtain ⟨version_str, s3⟩ := p3
        simp only
        split_ifs
        · rw [parse_query_string_frame]
        · rfl

theorem flatten_lines_intercalate :
    ∀ lines : List Str, lines ≠ [] →
      HTTPRequest.read_body lines [] = List.intercalate (lit "\n") lines ++ lit "\n"
  | [], h => absurd rfl h
  | [line], _ => by
    simp [HTTPRequest.read_body, List.intercalate, List.intersperse]
  | line :: next :: rest, _ => by
    rw [read_body_cons, flatten_lines_intercalate (next :: rest) (List.cons_ne_nil _ _)]
    simp [List.intercalate, List.intersperse]

theorem substr_drop_last (s : Str) (hne : s ≠ []) (hlen : s.length < size_mod) :
    substr s 0 ((s.length + npos) % size_mod) = s.dropLast := by
  rw [substr_zero, size_sub_one s.length (List.length_pos.2 hne) hlen, List.dropLast_eq_take]

theorem after_blank_line_none :
    ∀ (n : Nat) (text : Str), text.length ≤ n →
      (∀ line ∈ getlines '\n' text, line ≠ lit "\r" ∧ line ≠ []) → after_blank_line text = []
  | 0, text, h, _ => by
    have hs : text = [] := List.length_eq_zero.1 (Nat.le_zero.1 h)
    rw [hs]
    rfl
  | n + 1, text, h, hall => by
    rw [after_blank_line_eq]
    rw [getlines_eq] at hall
    cases hg : getline '\n' text with
    | none => rfl
    | some p =>
      obtain ⟨line, rest⟩ := p
      have hl := (getline_length '\n' text line rest hg).2
      rw [hg] at hall
      simp only at hall ⊢
      have h1 := hall line (List.mem_cons_self _ _)
      have hb : ¬ (line = lit "\r" ∨ line = []) := by
        intro hc
        rcases hc with hc | hc
        · exact h1.1 hc
        · exact h1.2 hc
      rw [if_neg hb]
      exact after_blank_line_none n rest (by omega)
        (fun l hl2 => hall l (List.mem_cons_of_mem _ hl2))

theorem body_text_length (raw_request : Str) (hne : raw_request ≠ []) :
    (body_text raw_request).length + 1 ≤ raw_request.length := by
  unfold body_text
  have h1 := after_blank_line_length _ ((raw_request.dropWhile (fun c => c != '\n')).drop 1)
    (le_refl _)
  have h2 := dropWhile_length_le (fun c => c != '\n') raw_request
  have h3 : 0 < raw_request.length := List.length_pos.2 hne
  simp only [List.length_drop] at h1
  omega

/-- The body after `parse` of an input that is not empty: unchanged when nothing
follows the blank line, otherwise the text that follows it without its final
newline, which is also the lines of that text joined with newlines. -/
theorem parse_body_eq (req : HTTPRequest) (raw_request : Str) (hne : raw_request ≠ [])
    (hlen : raw_request.length < size_mod) :
    (HTTPRequest.parse req raw_request).2.body_
      = (if body_text raw_request = [] then req.body_
         else strip_newline (body_text raw_request)) ∧
    (body_text raw_request ≠ [] →
      (HTTPRequest.parse req raw_request).2.body_
        = List.intercalate (lit "\n") (getlines '\n' (body_text raw_request))) := by
  have hb := body_text_length raw_request hne
  have hj := read_body_getlines (body_text raw_request).length (body_text raw_request) (le_refl _)
  rw [parse_shape req raw_request hne]
  simp only [parse_request_line_body]
  by_cases hB : body_text raw_request = []
  · simp only [hB, if_true, ne_eq, not_true_eq_false, false_implies, and_true]
    have : HTTPRequest.read_body (getlines '\n' []) [] = [] := rfl
    simp [this]
  · have hlines : getlines '\n' (body_text raw_request) ≠ [] := by
      rw [getlines_cons _ _ hB]
      simp
    have hjne : HTTPRequest.read_body (getlines '\n' (body_text raw_request)) [] ≠ [] := by
      rw [flatten_lines_intercalate _ hlines]
      simp [lit]
    have hjlen : (HTTPRequest.read_body (getlines '\n' (body_text raw_request)) []).length
        < size_mod := by
      rw [hj]
      split_ifs
      · omega
      · simp only [List.length_append]
        have : (lit "\n").length = 1 := rfl
        omega
    simp only [hB, if_false, hjne, ne_eq, not_false_eq_true, if_true, true_implies]
    rw [substr_drop_last _ hjne hjlen]
    constructor
    · rw [hj]
      unfold strip_newline
      simp only [hB, false_or]
      split_ifs
      · rfl
      · exact List.dropLast_concat
    · rw [flatten_lines_intercalate _ hlines]
      exact List.dropLast_concat

/-- C11: the body parsed into a fresh request is the raw text that follows the
header-terminating blank line without a single final newline when that text ends
with one (carriage returns are kept); it is the lines of that text joined with
newlines; it is empty when no line after the request line is blank or when
nothing follows the blank line. On a request object that already has a body, the
body is kept when nothing follows the blank line. -/
theorem parse_body_text (raw_request : Str) (hlen : raw_request.length < size_mod) :
    (HTTPRequest.parse HTTPRequest.ctor raw_request).2.body_
      = strip_newline (body_text raw_request) ∧
    (HTTPRequest.parse HTTPRequest.ctor raw_request).2.body_
      = List.intercalate (lit "\n") (getlines '\n' (body_text raw_request)) ∧
    ((∀ line ∈ (getlines '\n' raw_request).tail, line ≠ lit "\r" ∧ line ≠ []) →
      (HTTPRequest.parse HTTPRequest.ctor raw_request).2.body_ = []) ∧
    (body_text raw_request = [] →
      (HTTPRequest.parse HTTPRequest.ctor raw_request).2.body_ = []) ∧
    (∀ req : HTTPRequest, raw_request ≠ [] →
      (HTTPRequest.parse req raw_request).2.body_
        = if body_text raw_request = [] then req.body_
          else strip_newline (body_text raw_request)) := by
  by_cases hne : raw_request = []
  · subst hne
    refine ⟨rfl, rfl, fun _ => rfl, fun _ => rfl, fun _ h => absurd rfl h⟩
  · have hmain := parse_body_eq HTTPRequest.ctor raw_request hne hlen
    have hfirst : (HTTPRequest.parse HTTPRequest.ctor raw_request).2.body_
        = strip_newline (body_text raw_request) := by
      rw [hmain.1]
      split_ifs with hB
      · rw [hB]
        rfl
      · rfl
    have hempty : body_text raw_request = [] →
        (HTTPRequest.parse HTTPRequest.ctor raw_request).2.body_ = [] := by
      intro hB
      rw [hfirst, hB]
      rfl
    refine ⟨hfirst, ?_, ?_, hempty, fun req _ => (parse_body_eq req raw_request hne hlen).1⟩
    · by_cases hB : body_text raw_request = []
      · rw [hempty hB, hB]
        rfl
      · exact hmain.2 hB
    · intro hall
      apply hempty
      unfold body_text
      rw [getlines_cons '\n' raw_request hne, List.tail_cons] at hall
      exact after_blank_line_none _ _ (le_refl _) hall

/-- C11, at a request with a body of two lines, the first ending in CR LF and
the second in LF: the body keeps the carriage return and the newline between the
lines and loses the final newline. -/
theorem parse_body_text_witness :
    (HTTPRequest.parse HTTPRequest.ctor
        (lit "POST /x HTTP/1.1\r\nA: b\r\n\r\nline1\r\nline2\n")).2.body_
      = lit "line1\r\nline2" :=
  (parse_body_text (lit "POST /x HTTP/1.1\r\nA: b\r\n\r\nline1\r\nline2\n") (by decide)).1.trans
    (by decide)

/-! ### A request line with missing tokens -/

/-- On a line with fewer than three tokens one of the three extractions fails
and `parse_request_line` changes nothing. -/
theorem parse_request_line_few (req : HTTPRequest) (line : Str)
    (hfew : (words line).length < 3) :
    HTTPRequest.parse_request_line req line = req := by
  unfold HTTPRequest.parse_request_line
  have e1 := extract_word_words line
  cases h1 : extract_word line with
  | none => rfl
  | some p1 =>
    obtain ⟨w1, s1⟩ := p1
    rw [h1] at e1
    simp only at e1 ⊢
    rw [e1.1] at hfew
    have e2 := extract_word_words s1
    cases h2 : extract_word s1 with
    | none => rfl
    | some p2 =>
      obtain ⟨w2, s2⟩ := p2
      rw [h2] at e2
      simp only at e2 ⊢
      rw [e2.1] at hfew
      have e3 := extract_word_words s2
      cases h3 : extract_word s2 with
      | none => rfl
      | some p3 =>
        obtain ⟨w3, s3⟩ := p3
        rw [h3] at e3
        simp only at e3
        rw [e3.1] at hfew
        simp only [List.length_cons] at hfew
        omega

/-- C12: when the first line of an input that is not empty has fewer than three
whitespace-separated tokens, `parse` reports success and leaves the method, the
path, the version and the query parameters as they were (`UNKNOWN` and empty on
a fresh request), while the headers and the body are parsed from the lines that
follow. -/
theorem parse_short_request_line (req : HTTPRequest) (raw_request : Str)
    (hne : raw_request ≠ []) (hlen : raw_request.length < size_mod)
    (hfew : (words (raw_request.takeWhile (fun c => c != '\n'))).length < 3) :
    (HTTPRequest.parse req raw_request).1 = true ∧
    (HTTPRequest.parse req raw_request).2.method_ = req.method_ ∧
    (HTTPRequest.parse req raw_request).2.path_ = req.path_ ∧
    (HTTPRequest.parse req raw_request).2.version_ = req.version_ ∧
    (HTTPRequest.parse req raw_request).2.query_params_ = req.query_params_ ∧
    (HTTPRequest.ctor.method_ = Method.UNKNOWN ∧ HTTPRequest.ctor.path_ = [] ∧
      HTTPRequest.ctor.version_ = [] ∧ HTTPRequest.ctor.query_params_ = StrMap.empty) ∧
    (HTTPRequest.parse req raw_request).2.headers_
      = set_all req.headers_ ((header_section raw_request).filterMap header_of_line) ∧
    (HTTPRequest.parse req raw_request).2.body_
      = (if body_text raw_request = [] then req.body_
         else strip_newline (body_text raw_request)) := by
  have hline := parse_request_line_few req _ hfew
  have hshape := parse_shape req raw_request hne
  rw [hline] at hshape
  refine ⟨?_, ?_, ?_, ?_, ?_, ⟨rfl, rfl, rfl, rfl⟩,
    parse_stores_headers req raw_request hne hlen, (parse_body_eq req raw_request hne hlen).1⟩
  all_goals rw [hshape]

/-- C12, at an input whose first line is the single token `GET`, followed by a
header, a blank line and a body. -/
theorem parse_short_request_line_witness :
    (words ((lit "GET\r\nHost: x\r\n\r\nhello").takeWhile (fun c => c != '\n'))).length < 3 ∧
    (HTTPRequest.parse HTTPRequest.ctor (lit "GET\r\nHost: x\r\n\r\nhello")).1 = true ∧
    (HTTPRequest.parse HTTPRequest.ctor (lit "GET\r\nHost: x\r\n\r\nhello")).2.method_
      = Method.UNKNOWN ∧
    (HTTPRequest.parse HTTPRequest.ctor (lit "GET\r\nHost: x\r\n\r\nhello")).2.path_ = [] ∧
    (HTTPRequest.parse HTTPRequest.ctor (lit "GET\r\nHost: x\r\n\r\nhello")).2.headers_
      = StrMap.empty.set (lit "Host") (lit "x") ∧
    (HTTPRequest.parse HTTPRequest.ctor (lit "GET\r\nHost: x\r\n\r\nhello")).2.body_
      = lit "hello" := by
  obtain ⟨h1, h2, h3, _, _, _, h7, h8⟩ :=
    parse_short_request_line HTTPRequest.ctor (lit "GET\r\nHost: x\r\n\r\nhello")
      (by decide) (by decide) (by decide)
  exact ⟨by decide, h1, h2, h3, h7.trans (by decide), h8.trans (by decide)⟩

/-! ### The method token -/

theorem toNat_ofNat_lt (m : Nat) (h : m < 55296) : (Char.ofNat m).toNat = m := by
  have hv : m.isValidChar := Or.inl h
  unfold Char.ofNat
  rw [dif_pos hv]
  rfl

theorem char_eq_iff_toNat (a b : Char) : a = b ↔ a.toNat = b.toNat :=
  ⟨fun h => by rw [h], char_eq_of_toNat a b⟩

theorem toupper_toNat (c : Char) :
    (toupper c).toNat = if 97 ≤ c.toNat ∧ c.toNat ≤ 122 then c.toNat - 32 else c.toNat := by
  unfold toupper
  split_ifs with h
  · exact toNat_ofNat_lt _ (by omega)
  · rfl

theorem ascii_lower_toNat (c : Char) :
    (ascii_lower c).toNat = if 65 ≤ c.toNat ∧ c.toNat ≤ 90 then c.toNat + 32 else c.toNat := by
  unfold ascii_lower
  split_ifs with h
  · exact toNat_ofNat_lt _ (by omega)
  · rfl

/-- A character becomes a given capital letter under `toupper` exactly when it
is that letter up to case. -/
theorem toupper_eq_iff (c u : Char) (hu : 65 ≤ u.toNat ∧ u.toNat ≤ 90) :
    toupper c = u ↔ ascii_lower c = ascii_lower u := by
  rw [char_eq_iff_toNat, char_eq_iff_toNat (ascii_lower c), toupper_toNat, ascii_lower_toNat,
    ascii_lower_toNat]
  split_ifs <;> omega

theorem map_toupper_eq_iff :
    ∀ (s name : Str), (∀ u ∈ name, 65 ≤ u.toNat ∧ u.toNat ≤ 90) →
      (s.map toupper = name ↔ eq_ignore_case s name = true)
  | [], [], _ => by simp [eq_ignore_case]
  | [], _ :: _, _ => by simp [eq_ignore_case]
  | _ :: _, [], _ => by simp [eq_ignore_case]
  | c :: cs, u :: us, h => by
    have hu := h u (List.mem_cons_self _ _)
    have ih := map_toupper_eq_iff cs us (fun x hx => h x (List.mem_cons_of_mem _ hx))
    simp only [eq_ignore_case, List.map_cons, beq_iff_eq, List.cons.injEq] at ih ⊢
    rw [toupper_eq_iff c u hu, ih]

theorem parse_method_upper (u : Str) :
    let m := if u = lit "GET" then Method.GET
      else if u = lit "POST" then Method.POST
      else if u = lit "PUT" then Method.PUT
      else if u = lit "DELETE" then Method.DELETE
      else if u = lit "HEAD" then Method.HEAD
      else if u = lit "OPTIONS" then Method.OPTIONS
      else Method.UNKNOWN
    (m = Method.GET ↔ u = lit "GET") ∧ (m = Method.POST ↔ u = lit "POST") ∧
    (m = Method.PUT ↔ u = lit "PUT") ∧ (m = Method.DELETE ↔ u = lit "DELETE") ∧
    (m = Method.HEAD ↔ u = lit "HEAD") ∧ (m = Method.OPTIONS ↔ u = lit "OPTIONS") ∧
    (m = Method.UNKNOWN ↔
      ¬ (u = lit "GET" ∨ u = lit "POST" ∨ u = lit "PUT" ∨ u = lit "DELETE" ∨ u = lit "HEAD"
        ∨ u = lit "OPTIONS")) := by
  intro m
  by_cases h1 : u = lit "GET"
  · subst h1; decide
  by_cases h2 : u = lit "POST"
  · subst h2; decide
  by_cases h3 : u = lit "PUT"
  · subst h3; decide
  by_cases h4 : u = lit "DELETE"
  · subst h4; decide
  by_cases h5 : u = lit "HEAD"
  · subst h5; decide
  by_cases h6 : u = lit "OPTIONS"
  · subst h6; decide
  have hm : m = Method.UNKNOWN := by
    simp only [m, if_neg h1, if_neg h2, if_neg h3, if_neg h4, if_neg h5, if_neg h6]
  rw [hm]
  simp [h1, h2, h3, h4, h5, h6]

/-- C13: `parse_method` returns GET, POST, PUT, DELETE, HEAD or OPTIONS exactly
when the token equals that name up to the case of its ASCII letters, and UNKNOWN
for every other token. -/
theorem parse_method_case_insensitive (method_str : Str) :
    (HTTPRequest.parse_method method_str = Method.GET
      ↔ eq_ignore_case method_str (lit "GET") = true) ∧
    (HTTPRequest.parse_method method_str = Method.POST
      ↔ eq_ignore_case method_str (lit "POST") = true) ∧
    (HTTPRequest.parse_method method_str = Method.PUT
      ↔ eq_ignore_case method_str (lit "PUT") = true) ∧
    (HTTPRequest.parse_method method_str = Method.DELETE
      ↔ eq_ignore_case method_str (lit "DELETE") = true) ∧
    (HTTPRequest.parse_method method_str = Method.HEAD
      ↔ eq_ignore_case method_str (lit "HEAD") = true) ∧
    (HTTPRequest.parse_method method_str = Method.OPTIONS
      ↔ eq_ignore_case method_str (lit "OPTIONS") = true) ∧
    (HTTPRequest.parse_method method_str = Method.UNKNOWN
      ↔ ¬ (eq_ignore_case method_str (lit "GET") = true
          ∨ eq_ignore_case method_str (lit "POST") = true
          ∨ eq_ignore_case method_str (lit "PUT") = true
          ∨ eq_ignore_case method_str (lit "DELETE") = true
          ∨ eq_ignore_case method_str (lit "HEAD") = true
          ∨ eq_ignore_case method_str (lit "OPTIONS") = true)) := by
  have h := parse_method_upper (method_str.map toupper)
  rw [← map_toupper_eq_iff method_str (lit "GET") (by decide),
    ← map_toupper_eq_iff method_str (lit "POST") (by decide),
    ← map_toupper_eq_iff method_str (lit "PUT") (by decide),
    ← map_toupper_eq_iff method_str (lit "DELETE") (by decide),
    ← map_toupper_eq_iff method_str (lit "HEAD") (by decide),
    ← map_toupper_eq_iff method_str (lit "OPTIONS") (by decide)]
  exact h

/-- C13, at the tokens `get`, `Delete`, `oPtIoNs`, `GETS` and `patch`. -/
theorem parse_method_case_insensitive_witness :
    HTTPRequest.parse_method (lit "get") = Method.GET ∧
    HTTPRequest.parse_method (lit "Delete") = Method.DELETE ∧
    HTTPRequest.parse_method (lit "oPtIoNs") = Method.OPTIONS ∧
    HTTPRequest.parse_method (lit "GETS") = Method.UNKNOWN ∧
    HTTPRequest.parse_method (lit "patch") = Method.UNKNOWN :=
  ⟨(parse_method_case_insensitive (lit "get")).1.2 (by decide),
   (parse_method_case_insensitive (lit "Delete")).2.2.2.1.2 (by decide),
   (parse_method_case_insensitive (lit "oPtIoNs")).2.2.2.2.2.1.2 (by decide),
   (parse_method_case_insensitive (lit "GETS")).2.2.2.2.2.2.2 (by decide),
   (parse_method_case_insensitive (lit "patch")).2.2.2.2.2.2.2 (by decide)⟩

/-! ### The echo handler -/

theorem echo_step_contains (st : Str × Bool) (entry : Str × Str) :
    st.1 <+: ((if !st.2 then st.1 ++ lit ",\n" else st.1) ++ lit "    \"" ++ entry.1
        ++ lit "\": \"" ++ entry.2 ++ lit "\"") ∧
    quoted_pair entry.1 entry.2 <:+: ((if !st.2 then st.1 ++ lit ",\n" else st.1)
        ++ lit "    \"" ++ entry.1 ++ lit "\": \"" ++ entry.2 ++ lit "\"") := by
  constructor
  · cases st.2 with
    | true => simp [List.append_assoc]
    | false => simp [List.append_assoc]
  · refine ⟨(if !st.2 then st.1 ++ lit ",\n" else st.1) ++ lit "    ", [], ?_⟩
    have e : lit "    \"" = lit "    " ++ lit "\"" := rfl
    rw [e]
    simp only [quoted_pair, List.append_assoc, List.append_nil]

theorem echo_fold_contains (entries : List (Str × Str)) :
    ∀ st : Str × Bool,
      st.1 <+: (entries.foldl
        (fun (st : Str × Bool) entry =>
          ((if !st.2 then st.1 ++ lit ",\n" else st.1) ++ lit "    \"" ++ entry.1
            ++ lit "\": \"" ++ entry.2 ++ lit "\"", false)) st).1 ∧
      ∀ entry ∈ entries, quoted_pair entry.1 entry.2 <:+: (entries.foldl
        (fun (st : Str × Bool) entry =>
          ((if !st.2 then st.1 ++ lit ",\n" else st.1) ++ lit "    \"" ++ entry.1
            ++ lit "\": \"" ++ entry.2 ++ lit "\"", false)) st).1 := by
  induction entries with
  | nil =>
    intro st
    exact ⟨List.prefix_refl _, fun e he => absurd he (List.not_mem_nil e)⟩
  | cons e rest ih =>
    intro st
    have hstep := echo_step_contains st e
    have hrest := ih ((if !st.2 then st.1 ++ lit ",\n" else st.1) ++ lit "    \"" ++ e.1
      ++ lit "\": \"" ++ e.2 ++ lit "\"", false)
    simp only [List.foldl_cons]
    refine ⟨hstep.1.trans hrest.1, ?_⟩
    intro entry hentry
    rcases List.mem_cons.1 hentry with h | h
    · rw [h]
      exact List.IsInfix.trans hstep.2 hrest.1.isInfix
    · exact hrest.2 entry h

/-- The text written by a loop of `handle_echo` starts with the text written
before and contains every entry of the map as `"<name>": "<value>"`. -/
theorem echo_entries_contains (json : Str) (entries : List (Str × Str)) :
    json <+: echo_entries json entries ∧
    ∀ entry ∈ entries, quoted_pair entry.1 entry.2 <:+: echo_entries json entries := by
  unfold echo_entries
  exact echo_fold_contains entries (json, true)

theorem find_some_mem (m : StrMap) (name value : Str) (h : m.find name = some value) :
    (name, value) ∈ m.entries := by
  unfold StrMap.find at h
  cases hf : m.entries.find? (fun e => !str_lt e.1 name && !str_lt name e.1) with
  | none =>
    rw [hf] at h
    exact Option.noConfusion h
  | some e =>
    rw [hf] at h
    simp only [Option.map_some', Option.some.injEq] at h
    have h1 := List.find?_some hf
    have h2 := List.mem_of_find?_eq_some hf
    have h3 : e.1 = name := (str_equiv_iff e.1 name).1 h1
    have h4 : e = (name, value) := by
      rw [← h3, ← h]
    rw [← h4]
    exact h2

theorem handle_echo_body (request : HTTPRequest) :
    ∃ before between after : Str,
      (RouteHandler.handle_echo request).body_
        = echo_entries (echo_entries before request.headers_.entries ++ between)
            request.query_params_.entries ++ after := by
  simp only [RouteHandler.handle_echo, HTTPResponse.set_json_response,
    HTTPResponse.set_content_type, List.append_assoc, List.nil_append]
  exact ⟨_, _, _, rfl⟩

/-- C14: the response of the echo handler has status 200 and
`Content-Type: application/json`, and its body contains, verbatim, the text
`"<name>": "<value>"` for every header and for every query parameter of the
request, whatever the request is; in particular for the request that a
successful parse produced. -/
theorem handle_echo_contains (request : HTTPRequest) :
    (RouteHandler.handle_echo request).status_code_ = StatusCode.OK ∧
    (RouteHandler.handle_echo request).status_code_.code = 200 ∧
    (RouteHandler.handle_echo request).headers_.find (lit "Content-Type")
      = some (lit "application/json") ∧
    (∀ name value : Str, request.headers_.find name = some value →
      quoted_pair name value <:+: (RouteHandler.handle_echo request).body_) ∧
    (∀ name value : Str, request.query_params_.find name = some value →
      quoted_pair name value <:+: (RouteHandler.handle_echo request).body_) ∧
    (∀ entry ∈ request.headers_.entries,
      quoted_pair entry.1 entry.2 <:+: (RouteHandler.handle_echo request).body_) ∧
    (∀ entry ∈ request.query_params_.entries,
      quoted_pair entry.1 entry.2 <:+: (RouteHandler.handle_echo request).body_) := by
  obtain ⟨before, between, after, hbody⟩ := handle_echo_body request
  have hq := echo_entries_contains
    (echo_entries before request.headers_.entries ++ between) request.query_params_.entries
  have hh := echo_entries_contains before request.headers_.entries
  have hheaders : ∀ entry ∈ request.headers_.entries,
      quoted_pair entry.1 entry.2 <:+: (RouteHandler.handle_echo request).body_ := by
    intro entry hentry
    rw [hbody]
    have h1 := hh.2 entry hentry
    have h2 : echo_entries before request.headers_.entries
        <:+: echo_entries (echo_entries before request.headers_.entries ++ between)
          request.query_params_.entries :=
      ((List.prefix_append _ _).trans hq.1).isInfix
    exact (h1.trans h2).trans (List.prefix_append _ _).isInfix
  have hparams : ∀ entry ∈ request.query_params_.entries,
      quoted_pair entry.1 entry.2 <:+: (RouteHandler.handle_echo request).body_ := by
    intro entry hentry
    rw [hbody]
    exact (hq.2 entry hentry).trans (List.prefix_append _ _).isInfix
  refine ⟨rfl, rfl, rfl, ?_, ?_, hheaders, hparams⟩
  · intro name value h
    exact hheaders (name, value) (find_some_mem _ _ _ h)
  · intro name value h
    exact hparams (name, value) (find_some_mem _ _ _ h)

/-- C14, at a parsed request with a header whose value holds quotation marks and
a query parameter: both come out in the body as they are. -/
theorem handle_echo_contains_witness :
    (HTTPRequest.parse HTTPRequest.ctor
        (lit "GET /echo?q=1 HTTP/1.1\r\nX-A: \"v\"\r\n\r\n")).1 = true ∧
    lit "\"X-A\": \"\"v\"\"" <:+: (RouteHandler.handle_echo (HTTPRequest.parse HTTPRequest.ctor
        (lit "GET /echo?q=1 HTTP/1.1\r\nX-A: \"v\"\r\n\r\n")).2).body_ ∧
    lit "\"q\": \"1\"" <:+: (RouteHandler.handle_echo (HTTPRequest.parse HTTPRequest.ctor
        (lit "GET /echo?q=1 HTTP/1.1\r\nX-A: \"v\"\r\n\r\n")).2).body_ :=
  ⟨by decide,
   (handle_echo_contains (HTTPRequest.parse HTTPRequest.ctor
      (lit "GET /echo?q=1 HTTP/1.1\r\nX-A: \"v\"\r\n\r\n")).2).2.2.2.1
      (lit "X-A") (lit "\"v\"") (by decide),
   (handle_echo_contains (HTTPRequest.parse HTTPRequest.ctor
      (lit "GET /echo?q=1 HTTP/1.1\r\nX-A: \"v\"\r\n\r\n")).2).2.2.2.2.1
      (lit "q") (lit "1") (by decide)⟩

/-! ### The default routes -/

/-- A pattern that does not end in `*` (and is not empty): `path_matches`
returns whether the request path is the pattern. -/
theorem path_matches_literal (pattern r : Str) (c : Char)
    (hlast : pattern.getLast? = some c) (hc : c ≠ '*') :
    RouteHandler.path_matches pattern r = some (decide (pattern = r)) := by
  rw [RouteHandler.path_matches_eq]
  split_ifs with heq
  · simp [heq]
  · rw [hlast]
    simp [hc, heq]

/-- One step of the loop of `handle_request` at a binding whose pattern does not
end in `*`. -/
theorem find_route_exact (m : Str) (request : HTTPRequest) (route : Route)
    (rest : List Route) (c : Char) (hlast : route.path.getLast? = some c) (hc : c ≠ '*') :
    RouteHandler.find_route m request (route :: rest)
      = if route.method = m ∧ route.path = request.path_ then some (route.callback request)
        else RouteHandler.find_route m request rest := by
  simp only [RouteHandler.find_route, path_matches_literal route.path request.path_ c hlast hc]
  by_cases hm : route.method = m
  · by_cases hp : route.path = request.path_
    · simp [hm, hp]
    · simp [hm, hp]
  · simp [hm]

theorem method_name_eq (m : Method) :
    (lit "GET" = method_name m ↔ m = Method.GET) ∧
    (lit "POST" = method_name m ↔ m = Method.POST) := by
  cases m <;> decide

/-- The response of a freshly constructed route table, by cases on the method
and the path of the request. -/
theorem default_dispatch (env : Env) (request : HTTPRequest) :
    RouteHandler.handle_request (RouteHandler.ctor env) request
      = some (
          if request.method_ = Method.GET ∧ request.path_ = lit "/" then
            RouteHandler.handle_root request
          else if request.method_ = Method.GET ∧ request.path_ = lit "/health" then
            RouteHandler.handle_health env request
          else if request.method_ = Method.GET ∧ request.path_ = lit "/echo" then
            RouteHandler.handle_echo request
          else if request.method_ = Method.POST ∧ request.path_ = lit "/echo" then
            RouteHandler.handle_echo request
          else if request.method_ = Method.GET ∧ request.path_ = lit "/static" then
            RouteHandler.handle_static_file env request
          else HTTPResponse.not_found (lit "Route not found: " ++ request.path_)) := by
  unfold RouteHandler.handle_request RouteHandler.ctor RouteHandler.register_default_routes
  simp only [RouteHandler.register_route, List.nil_append, List.cons_append]
  rw [find_route_exact _ _ _ _ '/' (by rfl) (by decide),
    find_route_exact _ _ _ _ 'h' (by rfl) (by decide),
    find_route_exact _ _ _ _ 'o' (by rfl) (by decide),
    find_route_exact _ _ _ _ 'o' (by rfl) (by decide),
    find_route_exact _ _ _ _ 'c' (by rfl) (by decide)]
  simp only [RouteHandler.find_route, (method_name_eq request.method_).1,
    (method_name_eq request.method_).2, eq_comm (a := lit "/"), eq_comm (a := lit "/health"),
    eq_comm (a := lit "/echo"), eq_comm (a := lit "/static")]
  split_ifs <;> rfl

/-- C15: a freshly constructed route table holds exactly the five bindings
GET /, GET /health, GET /echo, POST /echo and GET /static, in this order; a
request gets the response of the handler of one of them exactly when its method
and path are one of these five pairs, and the 404 `Route not found` response
otherwise, also for GET on a path below `/static/`. -/
theorem default_routes_surface (env : Env) (request : HTTPRequest) :
    (RouteHandler.ctor env).routes_.map (fun route => (route.method, route.path))
      = [(lit "GET", lit "/"), (lit "GET", lit "/health"), (lit "GET", lit "/echo"),
         (lit "POST", lit "/echo"), (lit "GET", lit "/static")] ∧
    RouteHandler.handle_request (RouteHandler.ctor env) request
      = some (
          if request.method_ = Method.GET ∧ request.path_ = lit "/" then
            RouteHandler.handle_root request
          else if request.method_ = Method.GET ∧ request.path_ = lit "/health" then
            RouteHandler.handle_health env request
          else if request.method_ = Method.GET ∧ request.path_ = lit "/echo" then
            RouteHandler.handle_echo request
          else if request.method_ = Method.POST ∧ request.path_ = lit "/echo" then
            RouteHandler.handle_echo request
          else if request.method_ = Method.GET ∧ request.path_ = lit "/static" then
            RouteHandler.handle_static_file env request
          else HTTPResponse.not_found (lit "Route not found: " ++ request.path_)) ∧
    (∀ rest : Str, request.path_ = lit "/static/" ++ rest →
      RouteHandler.handle_request (RouteHandler.ctor env) request
        = some (HTTPResponse.not_found (lit "Route not found: " ++ request.path_))) := by
  refine ⟨rfl, default_dispatch env request, ?_⟩
  intro rest hpath
  rw [default_dispatch env request]
  have e0 : lit "/static/" = ['/', 's', 't', 'a', 't', 'i', 'c', '/'] := rfl
  have e1 : lit "/" = ['/'] := rfl
  have e2 : lit "/health" = ['/', 'h', 'e', 'a', 'l', 't', 'h'] := rfl
  have e3 : lit "/echo" = ['/', 'e', 'c', 'h', 'o'] := rfl
  have e4 : lit "/static" = ['/', 's', 't', 'a', 't', 'i', 'c'] := rfl
  have h1 : request.path_ ≠ lit "/" := by rw [hpath, e0, e1]; simp
  have h2 : request.path_ ≠ lit "/health" := by rw [hpath, e0, e2]; simp
  have h3 : request.path_ ≠ lit "/echo" := by rw [hpath, e0, e3]; simp
  have h4 : request.path_ ≠ lit "/static" := by rw [hpath, e0, e4]; simp
  simp only [h1, h2, h3, h4, and_false, if_false]

/-- C15, at the requests `GET /static/index.html`, `PUT /` and `POST /echo`. -/
theorem default_routes_surface_witness :
    RouteHandler.handle_request (RouteHandler.ctor { time := 0, open_file := fun _ => none })
        { HTTPRequest.ctor with method_ := Method.GET, path_ := lit "/static/index.html" }
      = some (HTTPResponse.not_found (lit "Route not found: /static/index.html")) ∧
    RouteHandler.handle_request (RouteHandler.ctor { time := 0, open_file := fun _ => none })
        { HTTPRequest.ctor with method_ := Method.PUT, path_ := lit "/" }
      = some (HTTPResponse.not_found (lit "Route not found: /")) ∧
    RouteHandler.handle_request (RouteHandler.ctor { time := 0, open_file := fun _ => none })
        { HTTPRequest.ctor with method_ := Method.POST, path_ := lit "/echo" }
      = some (RouteHandler.handle_echo
          { HTTPRequest.ctor with method_ := Method.POST, path_ := lit "/echo" }) :=
  ⟨(default_routes_surface { time := 0, open_file := fun _ => none }
      { HTTPRequest.ctor with method_ := Method.GET, path_ := lit "/static/index.html" }).2.2
      (lit "index.html") rfl,
   (default_routes_surface { time := 0, open_file := fun _ => none }
      { HTTPRequest.ctor with method_ := Method.PUT, path_ := lit "/" }).2.1.trans rfl,
   (default_routes_surface { time := 0, open_file := fun _ => none }
      { HTTPRequest.ctor with method_ := Method.POST, path_ := lit "/echo" }).2.1.trans rfl⟩

/-! ### The setters and the helper constructors of a response -/

theorem filter_key_of_nodup (k v : Str) :
    ∀ l : List (Str × Str), (l.map Prod.fst).Nodup → (k, v) ∈ l →
      l.filter (fun e => e.1 == k) = [(k, v)]
  | [], _, h => absurd h (List.not_mem_nil _)
  | e :: rest, hnd, h => by
    rw [List.map_cons, List.nodup_cons] at hnd
    rcases List.mem_cons.1 h with h1 | h1
    · subst h1
      have hrest : rest.filter (fun e => e.1 == k) = [] := by
        rw [List.filter_eq_nil_iff]
        intro x hx hxk
        apply hnd.1
        simp only [beq_iff_eq] at hxk
        exact List.mem_map.2 ⟨x, hx, hxk⟩
      simp [List.filter_cons, hrest]
    · have hne : ¬ e.1 = k := by
        intro hek
        apply hnd.1
        rw [hek]
        exact List.mem_map_of_mem Prod.fst h1
      have hb : (e.1 == k) = false := by simpa using hne
      rw [List.filter_cons, hb]
      exact filter_key_of_nodup k v rest hnd.2 h1

/-- After `m[k] = v` the map has exactly one entry with the key `k`, with the
value `v`. -/
theorem entries_set_self (m : StrMap) (k v : Str) :
    (m.set k v).entries.filter (fun e => e.1 == k) = [(k, v)] :=
  filter_key_of_nodup k v _ (ordered_keys_nodup _ (m.set k v).ordered)
    (find_some_mem _ _ _ (find_set_self m k v))

/-- C16: after `set_json_response`, `set_html_response` or `set_text_response`
with the data `d` the body is `d` and the one `Content-Type` header is
`application/json`, `text/html; charset=utf-8` or `text/plain; charset=utf-8`,
whatever it was before; the status code and every other header are unchanged. -/
theorem set_response_content (r : HTTPResponse) (d : Str) :
    ((r.set_json_response d).body_ = d ∧
      (r.set_json_response d).headers_.find (lit "Content-Type")
        = some (lit "application/json") ∧
      (r.set_json_response d).headers_.entries.filter (fun e => e.1 == lit "Content-Type")
        = [(lit "Content-Type", lit "application/json")] ∧
      (r.set_json_response d).status_code_ = r.status_code_ ∧
      ∀ name : Str, name ≠ lit "Content-Type" →
        (r.set_json_response d).headers_.find name = r.headers_.find name) ∧
    ((r.set_html_response d).body_ = d ∧
      (r.set_html_response d).headers_.find (lit "Content-Type")
        = some (lit "text/html; charset=utf-8") ∧
      (r.set_html_response d).headers_.entries.filter (fun e => e.1 == lit "Content-Type")
        = [(lit "Content-Type", lit "text/html; charset=utf-8")] ∧
      (r.set_html_response d).status_code_ = r.status_code_ ∧
      ∀ name : Str, name ≠ lit "Content-Type" →
        (r.set_html_response d).headers_.find name = r.headers_.find name) ∧
    ((r.set_text_response d).body_ = d ∧
      (r.set_text_response d).headers_.find (lit "Content-Type")
        = some (lit "text/plain; charset=utf-8") ∧
      (r.set_text_response d).headers_.entries.filter (fun e => e.1 == lit "Content-Type")
        = [(lit "Content-Type", lit "text/plain; charset=utf-8")] ∧
      (r.set_text_response d).status_code_ = r.status_code_ ∧
      ∀ name : Str, name ≠ lit "Content-Type" →
        (r.set_text_response d).headers_.find name = r.headers_.find name) := by
  refine ⟨⟨rfl, find_set_self _ _ _, entries_set_self _ _ _, rfl, ?_⟩,
    ⟨rfl, find_set_self _ _ _, entries_set_self _ _ _, rfl, ?_⟩,
    ⟨rfl, find_set_self _ _ _, entries_set_self _ _ _, rfl, ?_⟩⟩
  all_goals
    intro name hname
    exact find_set_other _ _ _ _ (fun h => hname h.symm)

/-- C16, at a response that already has a `Content-Type`, the status 404 and a
header `X-Id`: `set_json_response` replaces the content type and the body and
keeps the rest. -/
theorem set_response_content_witness :
    ((((HTTPResponse.not_found (lit "gone")).add_header (lit "X-Id") (lit "7")).set_json_response
        (lit "[]")).to_string)
      = lit ("HTTP/1.1 404 Not Found\r\nConnection: close\r\nContent-Type: application/json\r\n"
          ++ "Server: C++ HTTP Server\r\nX-Id: 7\r\n\r\n[]") ∧
    (((HTTPResponse.not_found (lit "gone")).add_header (lit "X-Id") (lit "7")).set_json_response
        (lit "[]")).headers_.find (lit "Content-Type") = some (lit "application/json") :=
  ⟨by decide,
   (set_response_content ((HTTPResponse.not_found (lit "gone")).add_header (lit "X-Id") (lit "7"))
      (lit "[]")).1.2.1⟩

/-- C17: the helper constructors `ok`, `not_found`, `bad_request` and
`internal_error` return a response with the status 200, 404, 400 and 500, whose
body is the argument (`ok` with an empty argument leaves the body untouched,
hence empty) and whose headers hold the defaults `Server: C++ HTTP Server` and
`Connection: close`; `ok` sets no `Content-Type`, the other three set
`text/plain; charset=utf-8`. -/
theorem helper_constructors (body message : Str) :
    ((HTTPResponse.ok body).status_code_.code = 200 ∧
      (HTTPResponse.ok body).body_ = body ∧
      (HTTPResponse.ok []).body_ = [] ∧
      (HTTPResponse.ok body).headers_.find (lit "Content-Type") = none ∧
      (HTTPResponse.ok body).headers_.find (lit "Server") = some (lit "C++ HTTP Server") ∧
      (HTTPResponse.ok body).headers_.find (lit "Connection") = some (lit "close")) ∧
    ((HTTPResponse.not_found message).status_code_.code = 404 ∧
      (HTTPResponse.not_found message).body_ = message ∧
      (HTTPResponse.not_found message).headers_.find (lit "Content-Type")
        = some (lit "text/plain; charset=utf-8") ∧
      (HTTPResponse.not_found message).headers_.find (lit "Server")
        = some (lit "C++ HTTP Server") ∧
      (HTTPResponse.not_found message).headers_.find (lit "Connection")
        = some (lit "close")) ∧
    ((HTTPResponse.bad_request message).status_code_.code = 400 ∧
      (HTTPResponse.bad_request message).body_ = message ∧
      (HTTPResponse.bad_request message).headers_.find (lit "Content-Type")
        = some (lit "text/plain; charset=utf-8") ∧
      (HTTPResponse.bad_request message).headers_.find (lit "Server")
        = some (lit "C++ HTTP Server") ∧
      (HTTPResponse.bad_request message).headers_.find (lit "Connection")
        = some (lit "close")) ∧
    ((HTTPResponse.internal_error message).status_code_.code = 500 ∧
      (HTTPResponse.internal_error message).body_ = message ∧
      (HTTPResponse.internal_error message).headers_.find (lit "Content-Type")
        = some (lit "text/plain; charset=utf-8") ∧
      (HTTPResponse.internal_error message).headers_.find (lit "Server")
        = some (lit "C++ HTTP Server") ∧
      (HTTPResponse.internal_error message).headers_.find (lit "Connection")
        = some (lit "close")) := by
  refine ⟨?_, ⟨rfl, rfl, rfl, rfl, rfl⟩, ⟨rfl, rfl, rfl, rfl, rfl⟩, ⟨rfl, rfl, rfl, rfl, rfl⟩⟩
  unfold HTTPResponse.ok
  by_cases hb : body = []
  · subst hb
    exact ⟨rfl, rfl, rfl, rfl, rfl, rfl⟩
  · simp only [ne_eq, hb, not_false_eq_true, if_true]
    exact ⟨rfl, rfl, rfl, rfl, rfl, rfl⟩

/-- C17, at `ok` with the body `done` and `internal_error` with the message
`boom`. -/
theorem helper_constructors_witness :
    (HTTPResponse.ok (lit "done")).to_string
      = lit "HTTP/1.1 200 OK\r\nConnection: close\r\nServer: C++ HTTP Server\r\n\r\ndone" ∧
    (HTTPResponse.internal_error (lit "boom")).status_code_.code = 500 ∧
    (HTTPResponse.internal_error (lit "boom")).body_ = lit "boom" :=
  ⟨by decide, (helper_constructors (lit "done") (lit "boom")).2.2.2.1,
   (helper_constructors (lit "done") (lit "boom")).2.2.2.2.1⟩

/-! ### Failure of the parse, duplicate headers, the connection handler -/

/-- `parse` of an input that is not empty reports success. -/
theorem parse_success (req : HTTPRequest) (raw_request : Str) (hne : raw_request ≠ []) :
    (HTTPRequest.parse req raw_request).1 = true := by
  rw [parse_shape req raw_request hne]

/-- C18: whenever `parse` reports failure the request object is as it was
before the call; a freshly constructed request still has the method `UNKNOWN`
and an empty path, version, header map, query parameter map and body. -/
theorem parse_failure_untouched (req : HTTPRequest) (raw_request : Str)
    (hfail : (HTTPRequest.parse req raw_request).1 = false) :
    (HTTPRequest.parse req raw_request).2 = req ∧
    (req = HTTPRequest.ctor →
      (HTTPRequest.parse req raw_request).2.method_ = Method.UNKNOWN ∧
      (HTTPRequest.parse req raw_request).2.path_ = [] ∧
      (HTTPRequest.parse req raw_request).2.version_ = [] ∧
      (HTTPRequest.parse req raw_request).2.headers_.entries = [] ∧
      (HTTPRequest.parse req raw_request).2.query_params_.entries = [] ∧
      (HTTPRequest.parse req raw_request).2.body_ = []) := by
  have hempty : raw_request = [] := by
    by_contra hne
    rw [parse_success req raw_request hne] at hfail
    exact Bool.noConfusion hfail
  subst hempty
  refine ⟨rfl, ?_⟩
  intro hreq
  subst hreq
  exact ⟨rfl, rfl, rfl, rfl, rfl, rfl⟩

/-- C18, at the empty input, on a request object that holds an earlier path. -/
theorem parse_failure_untouched_witness :
    (HTTPRequest.parse { HTTPRequest.ctor with path_ := lit "/old" } []).1 = false ∧
    (HTTPRequest.parse { HTTPRequest.ctor with path_ := lit "/old" } []).2
      = { HTTPRequest.ctor with path_ := lit "/old" } :=
  ⟨by decide,
   (parse_failure_untouched { HTTPRequest.ctor with path_ := lit "/old" } [] (by decide)).1⟩

/-- C19: after `parse_headers` the value stored for a name is that of the last
header line with exactly that trimmed name, or the value the request had when no
line has it; `get_header` and `has_header` read it; two names that differ, be
it only in letter case, are stored separately, each with its own last value. -/
theorem headers_last_write_wins (req : HTTPRequest) (header_lines : List Str)
    (hlen : ∀ line ∈ header_lines, line.length < size_mod) :
    (∀ name : Str,
      (HTTPRequest.parse_headers req header_lines).headers_.find name
        = match last_value (header_lines.filterMap header_of_line) name with
          | some value => some value
          | none => req.headers_.find name) ∧
    (∀ name value : Str,
      last_value (header_lines.filterMap header_of_line) name = some value →
      (HTTPRequest.parse_headers req header_lines).get_header name = value ∧
      (HTTPRequest.parse_headers req header_lines).has_header name = true) ∧
    (∀ name other value other_value : Str, name ≠ other →
      last_value (header_lines.filterMap header_of_line) name = some value →
      last_value (header_lines.filterMap header_of_line) other = some other_value →
      (HTTPRequest.parse_headers req header_lines).headers_.find name = some value ∧
      (HTTPRequest.parse_headers req header_lines).headers_.find other = some other_value) := by
  have hfind : ∀ name : Str,
      (HTTPRequest.parse_headers req header_lines).headers_.find name
        = match last_value (header_lines.filterMap header_of_line) name with
          | some value => some value
          | none => req.headers_.find name := by
    intro name
    rw [parse_headers_eq req header_lines hlen]
    exact find_set_all _ _ _
  refine ⟨hfind, ?_, ?_⟩
  · intro name value hlast
    have h := hfind name
    rw [hlast] at h
    simp only at h
    unfold HTTPRequest.get_header HTTPRequest.has_header
    rw [h]
    exact ⟨rfl, rfl⟩
  · intro name other value other_value _ h1 h2
    have g1 := hfind name
    have g2 := hfind other
    rw [h1] at g1
    rw [h2] at g2
    exact ⟨g1, g2⟩

/-- C19, at the header lines `Host: a`, `host: b`, `Host: c`: the map holds
`Host` with the value `c` and `host` with the value `b`. -/
theorem headers_last_write_wins_witness :
    (HTTPRequest.parse_headers HTTPRequest.ctor
        [lit "Host: a", lit "host: b", lit "Host: c"]).headers_.find (lit "Host")
      = some (lit "c") ∧
    (HTTPRequest.parse_headers HTTPRequest.ctor
        [lit "Host: a", lit "host: b", lit "Host: c"]).headers_.find (lit "host")
      = some (lit "b") ∧
    (HTTPRequest.parse_headers HTTPRequest.ctor
        [lit "Host: a", lit "host: b", lit "Host: c"]).headers_.entries
      = [(lit "Host", lit "c"), (lit "host", lit "b")] := by
  obtain ⟨h1, h2⟩ := (headers_last_write_wins HTTPRequest.ctor
    [lit "Host: a", lit "host: b", lit "Host: c"] (by decide)).2.2
    (lit "Host") (lit "host") (lit "c") (lit "b") (by decide) (by decide) (by decide)
  exact ⟨h1, h2, by decide⟩

/-- The response of a route table with bindings registered after construction:
the five default bindings are tried first, the later bindings after them. -/
theorem dispatch_after_registration (env : Env) (bindings : List Route)
    (request : HTTPRequest) :
    RouteHandler.handle_request (register_all (RouteHandler.ctor env) bindings) request
      = if request.method_ = Method.GET ∧ request.path_ = lit "/" then
          some (RouteHandler.handle_root request)
        else if request.method_ = Method.GET ∧ request.path_ = lit "/health" then
          some (RouteHandler.handle_health env request)
        else if request.method_ = Method.GET ∧ request.path_ = lit "/echo" then
          some (RouteHandler.handle_echo request)
        else if request.method_ = Method.POST ∧ request.path_ = lit "/echo" then
          some (RouteHandler.handle_echo request)
        else if request.method_ = Method.GET ∧ request.path_ = lit "/static" then
          some (RouteHandler.handle_static_file env request)
        else RouteHandler.find_route (method_name request.method_) request bindings := by
  unfold RouteHandler.handle_request
  rw [RouteHandler.register_all_routes]
  unfold RouteHandler.ctor RouteHandler.register_default_routes
  simp only [RouteHandler.register_route, List.nil_append, List.cons_append]
  rw [find_route_exact _ _ _ _ '/' (by rfl) (by decide),
    find_route_exact _ _ _ _ 'h' (by rfl) (by decide),
    find_route_exact _ _ _ _ 'o' (by rfl) (by decide),
    find_route_exact _ _ _ _ 'o' (by rfl) (by decide),
    find_route_exact _ _ _ _ 'c' (by rfl) (by decide)]
  simp only [(method_name_eq request.method_).1,
    (method_name_eq request.method_).2, eq_comm (a := lit "/"), eq_comm (a := lit "/health"),
    eq_comm (a := lit "/echo"), eq_comm (a := lit "/static")]

/-- C24: whatever bindings are registered after construction, a request whose
method and path are one of the five default pairs gets the response of the
default handler, the same as from a freshly constructed table; a binding
registered later for the same method and path has no part in it. -/
theorem default_routes_take_precedence (env : Env) (bindings : List Route)
    (request : HTTPRequest)
    (hpair : (request.method_ = Method.GET ∧ request.path_ = lit "/") ∨
      (request.method_ = Method.GET ∧ request.path_ = lit "/health") ∨
      (request.method_ = Method.GET ∧ request.path_ = lit "/echo") ∨
      (request.method_ = Method.POST ∧ request.path_ = lit "/echo") ∨
      (request.method_ = Method.GET ∧ request.path_ = lit "/static")) :
    RouteHandler.handle_request (register_all (RouteHandler.ctor env) bindings) request
      = RouteHandler.handle_request (RouteHandler.ctor env) request ∧
    RouteHandler.handle_request (register_all (RouteHandler.ctor env) bindings) request
      = some (
          if request.path_ = lit "/" then RouteHandler.handle_root request
          else if request.path_ = lit "/health" then RouteHandler.handle_health env request
          else if request.path_ = lit "/echo" then RouteHandler.handle_echo request
          else RouteHandler.handle_static_file env request) := by
  have h1 := dispatch_after_registration env bindings request
  have h2 := dispatch_after_registration env [] request
  have e : register_all (RouteHandler.ctor env) [] = RouteHandler.ctor env := rfl
  rw [e] at h2
  rw [h1, h2]
  rcases hpair with h | h | h | h | h
  all_goals
    obtain ⟨hm, hp⟩ := h
    rw [hm, hp]
    exact ⟨rfl, rfl⟩

/-- C24, at a table with a later binding for GET /: the request GET / gets the
page of `handle_root`, not the response of the later binding. -/
theorem default_routes_take_precedence_witness :
    RouteHandler.handle_request
        (register_all (RouteHandler.ctor { time := 0, open_file := fun _ => none })
          [{ method := lit "GET", path := lit "/",
             callback := fun _ => HTTPResponse.ok (lit "user") }])
        { HTTPRequest.ctor with method_ := Method.GET, path_ := lit "/" }
      = some (RouteHandler.handle_root
          { HTTPRequest.ctor with method_ := Method.GET, path_ := lit "/" }) ∧
    RouteHandler.handle_root { HTTPRequest.ctor with method_ := Method.GET, path_ := lit "/" }
      ≠ HTTPResponse.ok (lit "user") :=
  ⟨(default_routes_take_precedence { time := 0, open_file := fun _ => none }
      [{ method := lit "GET", path := lit "/",
         callback := fun _ => HTTPResponse.ok (lit "user") }]
      { HTTPRequest.ctor with method_ := Method.GET, path_ := lit "/" }
      (Or.inl ⟨rfl, rfl⟩)).2.trans rfl,
   by decide⟩

/-! ### Accesses in range -/

theorem find_route_defined (m : Str) (request : HTTPRequest) :
    ∀ routes : List Route, (∀ route ∈ routes, route.path ≠ []) →
      (RouteHandler.find_route m request routes).isSome = true
  | [], _ => rfl
  | route :: rest, hne => by
    have hroute := hne route (List.mem_cons_self _ _)
    have hrest := find_route_defined m request rest
      (fun r hr => hne r (List.mem_cons_of_mem _ hr))
    simp only [RouteHandler.find_route]
    split_ifs with hm
    · cases hp : RouteHandler.path_matches route.path request.path_ with
      | none =>
        exact absurd ((RouteHandler.path_matches_none_iff _ _).1 hp).1 hroute
      | some b =>
        cases b with
        | true => rfl
        | false => exact hrest
    · exact hrest

/-- C25: when every registered route pattern is non-empty, dispatch has a
defined result for every request, also one with an empty path: no string access
of it is out of range. For every binding, `path_matches` is defined on the
request path and on the empty path, `back()` reads the last character of a
pattern that is not empty, and the two `substr` calls, made with the length of
the pattern minus one as their count, start within their strings. The only
access of `path_matches` out of range, for any pattern and path, is `back()` of
the empty pattern with a path that is not empty. `register_route` does not
establish the precondition: it stores an empty pattern as it is, and with it
dispatch of a request for another path reads out of range. -/
theorem dispatch_in_range (rh : RouteHandler)
    (hne : ∀ route ∈ rh.routes_, route.path ≠ []) (request : HTTPRequest) :
    (RouteHandler.handle_request rh request).isSome = true ∧
    (RouteHandler.handle_request rh { request with path_ := [] }).isSome = true ∧
    (∀ route ∈ rh.routes_,
      RouteHandler.path_matches route.path request.path_ ≠ none ∧
      RouteHandler.path_matches route.path [] ≠ none ∧
      back route.path ≠ none ∧
      substr_checked request.path_ 0 ((route.path.length + npos) % size_mod) ≠ none ∧
      substr_checked [] 0 ((route.path.length + npos) % size_mod) ≠ none ∧
      substr_checked route.path 0 ((route.path.length + npos) % size_mod) ≠ none) ∧
    (∀ pattern path : Str,
      RouteHandler.path_matches pattern path = none ↔ pattern = [] ∧ path ≠ []) ∧
    (∀ (method : Str) (callback : HTTPRequest → HTTPResponse),
      (∃ route ∈ (rh.register_route method [] callback).routes_, route.path = []) ∧
      (request.path_ ≠ [] →
        RouteHandler.handle_request
          (RouteHandler.register_route { routes_ := [] } (method_name request.method_) []
            callback) request = none)) := by
  refine ⟨find_route_defined _ _ _ hne, find_route_defined _ _ _ hne, ?_,
    RouteHandler.path_matches_none_iff, ?_⟩
  · intro route hroute
    have h := hne route hroute
    refine ⟨?_, ?_, ?_, ?_, ?_, ?_⟩
    · intro hc
      exact h ((RouteHandler.path_matches_none_iff _ _).1 hc).1
    · intro hc
      exact h ((RouteHandler.path_matches_none_iff _ _).1 hc).1
    · intro hc
      exact h (List.getLast?_eq_none_iff.1 hc)
    · rw [RouteHandler.substr_checked_zero]
      exact Option.some_ne_none _
    · rw [RouteHandler.substr_checked_zero]
      exact Option.some_ne_none _
    · rw [RouteHandler.substr_checked_zero]
      exact Option.some_ne_none _
  · intro method callback
    refine ⟨⟨{ method := method, path := [], callback := callback }, ?_, rfl⟩, ?_⟩
    · simp [RouteHandler.register_route]
    · intro hpath
      have hp : RouteHandler.path_matches [] request.path_ = none :=
        (RouteHandler.path_matches_none_iff _ _).2 ⟨rfl, hpath⟩
      simp [RouteHandler.handle_request, RouteHandler.register_route, RouteHandler.find_route, hp]

/-- C25, at the route table of the server with a wildcard binding registered
after construction, and a request with an empty path: the `substr` calls of the
wildcard check are made on the empty path, and dispatch ends with the 404
response. -/
theorem dispatch_in_range_witness :
    (RouteHandler.handle_request
      ((RouteHandler.ctor { time := 0, open_file := fun _ => none }).register_route
        (lit "GET") (lit "/files/*") RouteHandler.handle_root)
      { HTTPRequest.ctor with method_ := Method.GET, path_ := [] }).isSome = true ∧
    RouteHandler.path_matches (lit "/files/*") [] ≠ none ∧
    RouteHandler.path_matches (lit "/files/*") [] = some false ∧
    RouteHandler.handle_request
      ((RouteHandler.ctor { time := 0, open_file := fun _ => none }).register_route
        (lit "GET") (lit "/files/*") RouteHandler.handle_root)
      { HTTPRequest.ctor with method_ := Method.GET, path_ := [] }
      = some (HTTPResponse.not_found (lit "Route not found: ")) :=
  have h := dispatch_in_range
    ((RouteHandler.ctor { time := 0, open_file := fun _ => none }).register_route
      (lit "GET") (lit "/files/*") RouteHandler.handle_root)
    (by
      intro route hroute
      simp only [RouteHandler.ctor, RouteHandler.register_default_routes,
        RouteHandler.register_route, List.nil_append, List.cons_append, List.mem_cons,
        List.mem_singleton, List.not_mem_nil, or_false] at hroute
      rcases hroute with h | h | h | h | h | h <;> (rw [h]; exact List.cons_ne_nil _ _))
    { HTTPRequest.ctor with method_ := Method.GET, path_ := [] }
  ⟨h.1,
   (h.2.2.1 (Route.mk (lit "GET") (lit "/files/*") RouteHandler.handle_root)
    (by simp [RouteHandler.register_route])).1,
   by decide, by rfl⟩

/-! ### The header terminator of a response -/

theorem digitChar_no_cr (d : Nat) (h : d < 10) : Nat.digitChar d ≠ '\r' := by
  interval_cases d <;> decide

theorem toDigitsCore_no_cr :
    ∀ (fuel n : Nat) (ds : List Char), (∀ c ∈ ds, c ≠ '\r') →
      ∀ c ∈ Nat.toDigitsCore 10 fuel n ds, c ≠ '\r'
  | 0, _, ds, h => by simpa [Nat.toDigitsCore] using h
  | fuel + 1, n, ds, h => by
    have hds : ∀ c ∈ Nat.digitChar (n % 10) :: ds, c ≠ '\r' := by
      intro c hc
      rcases List.mem_cons.1 hc with h1 | h1
      · rw [h1]; exact digitChar_no_cr _ (Nat.mod_lt _ (by decide))
      · exact h c h1
    simp only [Nat.toDigitsCore]
    split_ifs
    · exact hds
    · exact toDigitsCore_no_cr fuel (n / 10) _ hds

theorem to_string_int_no_cr (n : Int) : ∀ c ∈ to_string_int n, c ≠ '\r' := by
  cases n with
  | ofNat m =>
    exact toDigitsCore_no_cr _ _ [] (fun c hc => absurd hc (List.not_mem_nil c))
  | negSucc m =>
    intro c hc
    simp only [to_string_int, List.mem_cons] at hc
    rcases hc with h | h
    · rw [h]; decide
    · exact toDigitsCore_no_cr _ _ [] (fun c hc => absurd hc (List.not_mem_nil c)) c h

theorem get_status_message_no_cr (code : StatusCode) :
    ∀ c ∈ HTTPResponse.get_status_message code, c ≠ '\r' := by
  unfold HTTPResponse.get_status_message
  split_ifs <;> decide

/-- The search for the header terminator passes over text without carriage
return. -/
theorem index_of_sub_skip :
    ∀ (line rest : Str) (i : Nat), (∀ c ∈ line, c ≠ '\r') →
      index_of_sub (lit "\r\n\r\n") (line ++ rest) i
        = index_of_sub (lit "\r\n\r\n") rest (i + line.length)
  | [], rest, i, _ => rfl
  | c :: cs, rest, i, h => by
    have hc : c ≠ '\r' := h c (List.mem_cons_self _ _)
    have hp : (lit "\r\n\r\n").isPrefixOf (c :: (cs ++ rest)) = false := by
      have e : lit "\r\n\r\n" = ['\r', '\n', '\r', '\n'] := rfl
      rw [e]
      simp [List.isPrefixOf, Ne.symm hc]
    rw [List.cons_append, index_of_sub, if_neg (by rw [hp]; exact Bool.false_ne_true),
      index_of_sub_skip cs rest (i + 1) (fun x hx => h x (List.mem_cons_of_mem _ hx)),
      List.length_cons]
    congr 1
    omega

/-- At the end of a line the terminator is found when the next line is empty,
and searched after the line end otherwise. -/
theorem index_of_sub_line_end (rest : Str) (i : Nat) :
    index_of_sub (lit "\r\n\r\n") (lit "\r\n" ++ rest) i
      = if (lit "\r\n").isPrefixOf rest then some i
        else index_of_sub (lit "\r\n\r\n") rest (i + 2) := by
  have e1 : lit "\r\n\r\n" = ['\r', '\n', '\r', '\n'] := rfl
  have e2 : lit "\r\n" = ['\r', '\n'] := rfl
  rw [e1, e2]
  cases rest with
  | nil => simp [index_of_sub, List.isPrefixOf]
  | cons a as =>
    cases as with
    | nil =>
      by_cases ha : a = '\r'
      · subst ha
        simp [index_of_sub, List.isPrefixOf]
      · simp [index_of_sub, List.isPrefixOf, ha]
    | cons b bs =>
      by_cases ha : a = '\r'
      · subst ha
        by_cases hb : b = '\n'
        · subst hb
          simp [index_of_sub, List.isPrefixOf]
        · simp [index_of_sub, List.isPrefixOf, hb]
      · simp [index_of_sub, List.isPrefixOf, ha]

theorem index_of_sub_lines (body : Str) :
    ∀ (lines : List Str) (i : Nat), lines ≠ [] →
      (∀ line ∈ lines, line ≠ [] ∧ ∀ c ∈ line, c ≠ '\r') →
      index_of_sub (lit "\r\n\r\n")
          ((lines.map (fun line => line ++ lit "\r\n")).flatten ++ (lit "\r\n" ++ body)) i
        = some (i + ((lines.map (fun line => line ++ lit "\r\n")).flatten).length - 2)
  | [], _, h, _ => absurd rfl h
  | [line], i, _, hl => by
    have h1 := (hl line (List.mem_cons_self _ _)).2
    simp only [List.map_cons, List.map_nil, List.flatten_cons, List.flatten_nil,
      List.append_nil, List.append_assoc]
    rw [index_of_sub_skip line _ i h1, index_of_sub_line_end]
    have hp : (lit "\r\n").isPrefixOf (lit "\r\n" ++ body) = true :=
      List.isPrefixOf_iff_prefix.2 (List.prefix_append _ _)
    rw [if_pos hp]
    have e : (lit "\r\n").length = 2 := rfl
    simp only [List.length_append, e]
    congr 1
  | line :: next :: rest, i, _, hl => by
    have h1 := (hl line (List.mem_cons_self _ _)).2
    have h2 := hl next (List.mem_cons_of_mem _ (List.mem_cons_self _ _))
    have ih := index_of_sub_lines body (next :: rest) (i + line.length + 2)
      (List.cons_ne_nil _ _) (fun l hl2 => hl l (List.mem_cons_of_mem _ hl2))
    have e : ((line :: next :: rest).map (fun line => line ++ lit "\r\n")).flatten
        = line ++ (lit "\r\n" ++ ((next :: rest).map (fun line => line ++ lit "\r\n")).flatten) := by
      simp only [List.map_cons, List.flatten_cons, List.append_assoc]
    rw [e]
    simp only [List.append_assoc]
    rw [index_of_sub_skip line _ i h1, index_of_sub_line_end]
    have hp : ¬ (lit "\r\n").isPrefixOf
        (((next :: rest).map (fun line => line ++ lit "\r\n")).flatten
          ++ (lit "\r\n" ++ body)) = true := by
      intro hc
      cases hn : next with
      | nil => exact h2.1 hn
      | cons c cs =>
        have hcr : c ≠ '\r' := h2.2 c (by rw [hn]; exact List.mem_cons_self _ _)
        rw [hn] at hc
        have e2 : lit "\r\n" = ['\r', '\n'] := rfl
        rw [e2] at hc
        simp [List.isPrefixOf, Ne.symm hcr] at hc
    rw [if_neg hp, ih]
    have e3 : (lit "\r\n").length = 2 := rfl
    simp only [List.length_append, e3]
    congr 1
    omega

theorem index_of_sub_first (needle : Str) :
    ∀ (s : Str) (i j : Nat), index_of_sub needle s i = some j →
      ∀ before after : Str, s = before ++ needle ++ after → j ≤ i + before.length
  | [], i, j, h, before, after, _ => by
    simp only [index_of_sub] at h
    split_ifs at h
    simp only [Option.some.injEq] at h
    omega
  | c :: cs, i, j, h, before, after, hs => by
    simp only [index_of_sub] at h
    split_ifs at h with hp
    · simp only [Option.some.injEq] at h
      omega
    · cases before with
      | nil =>
        exfalso
        apply hp
        rw [hs]
        exact List.isPrefixOf_iff_prefix.2 ⟨after, by simp⟩
      | cons b bs =>
        simp only [List.cons_append, List.cons.injEq] at hs
        have := index_of_sub_first needle cs (i + 1) j h bs after hs.2
        simp only [List.length_cons]
        omega

theorem flatten_crlf_intercalate :
    ∀ lines : List Str, lines ≠ [] →
      (lines.map (fun line => line ++ lit "\r\n")).flatten
        = List.intercalate (lit "\r\n") lines ++ lit "\r\n"
  | [], h => absurd rfl h
  | [line], _ => by simp [List.intercalate, List.intersperse]
  | line :: next :: rest, _ => by
    have ih := flatten_crlf_intercalate (next :: rest) (List.cons_ne_nil _ _)
    rw [List.map_cons, List.flatten_cons, ih]
    simp [List.intercalate, List.intersperse]

/-- The text of a response is its status line and header lines, each followed by
CR LF, then an empty line and the body. -/
theorem to_string_lines (r : HTTPResponse) :
    r.to_string
      = ((status_line r :: r.headers_.entries.map header_line).map
          (fun line => line ++ lit "\r\n")).flatten ++ (lit "\r\n" ++ r.body_) := by
  unfold HTTPResponse.to_string HTTPResponse.status_code_to_string status_line
  have h := foldl_append_lines
    (fun header : Str × Str => header.1 ++ lit ": " ++ header.2 ++ lit "\r\n")
    r.headers_.entries
    ([] ++ lit "HTTP/1.1 " ++ to_string_int r.status_code_.code ++ lit " "
      ++ HTTPResponse.get_status_message r.status_code_ ++ lit "\r\n")
  simp only [List.append_assoc, List.nil_append] at h
  have hm : (r.headers_.entries.map header_line).map (fun line => line ++ lit "\r\n")
      = r.headers_.entries.map
          (fun header => header.1 ++ (lit ": " ++ (header.2 ++ lit "\r\n"))) := by
    rw [List.map_map]
    apply List.map_congr_left
    intro e _
    simp only [Function.comp, header_line, List.append_assoc]
  by_cases hb : r.body_ = []
  · simp only [hb, ne_eq, not_true_eq_false, if_false, List.append_assoc, List.nil_append,
      List.append_nil, List.map_cons, List.flatten_cons]
    rw [h, hm]
    simp only [List.append_assoc]
  · simp only [hb, ne_eq, not_false_eq_true, if_true, List.append_assoc, List.nil_append,
      List.map_cons, List.flatten_cons]
    rw [h, hm]
    simp only [List.append_assoc]

/-- C23: for a response whose header names and values hold no carriage return
and no line feed, the text is the head (status line and header lines), the
terminator CR LF CR LF and the body; the first occurrence of the terminator in
the text is the one after the head, so what follows the first occurrence is
exactly the body. -/
theorem to_string_terminator (r : HTTPResponse)
    (hclean : ∀ header ∈ r.headers_.entries,
      (∀ c ∈ header.1, c ≠ '\r' ∧ c ≠ '\n') ∧ (∀ c ∈ header.2, c ≠ '\r' ∧ c ≠ '\n')) :
    r.to_string = response_head r ++ lit "\r\n\r\n" ++ r.body_ ∧
    index_of_sub (lit "\r\n\r\n") r.to_string 0 = some (response_head r).length ∧
    r.to_string.drop ((response_head r).length + (lit "\r\n\r\n").length) = r.body_ ∧
    (∀ before after : Str, r.to_string = before ++ lit "\r\n\r\n" ++ after →
      (response_head r).length ≤ before.length) ∧
    (∀ after : Str, r.to_string = response_head r ++ lit "\r\n\r\n" ++ after →
      after = r.body_) := by
  have hlines : ∀ line ∈ status_line r :: r.headers_.entries.map header_line,
      line ≠ [] ∧ ∀ c ∈ line, c ≠ '\r' := by
    intro line hline
    rcases List.mem_cons.1 hline with h | h
    · rw [h]
      refine ⟨by simp [status_line, lit], ?_⟩
      intro c hc
      simp only [status_line, List.mem_append] at hc
      rcases hc with ((hc | hc) | hc) | hc
      · revert c
        decide
      · exact to_string_int_no_cr _ c hc
      · revert c
        decide
      · exact get_status_message_no_cr _ c hc
    · obtain ⟨header, hmem, hline2⟩ := List.mem_map.1 h
      rw [← hline2]
      refine ⟨by simp [header_line, lit], ?_⟩
      intro c hc
      simp only [header_line, List.mem_append] at hc
      rcases hc with (hc | hc) | hc
      · exact ((hclean header hmem).1 c hc).1
      · revert c
        decide
      · exact ((hclean header hmem).2 c hc).1
  have hflat := flatten_crlf_intercalate (status_line r :: r.headers_.entries.map header_line)
    (List.cons_ne_nil _ _)
  have hindex := index_of_sub_lines r.body_
    (status_line r :: r.headers_.entries.map header_line) 0 (List.cons_ne_nil _ _) hlines
  rw [← to_string_lines r, hflat] at hindex
  have htext : r.to_string = response_head r ++ lit "\r\n\r\n" ++ r.body_ := by
    rw [to_string_lines r, hflat]
    unfold response_head
    have e : lit "\r\n\r\n" = lit "\r\n" ++ lit "\r\n" := rfl
    rw [e]
    simp only [List.append_assoc]
  have hpos : index_of_sub (lit "\r\n\r\n") r.to_string 0 = some (response_head r).length := by
    rw [hindex]
    unfold response_head
    have e : (lit "\r\n").length = 2 := rfl
    simp only [List.length_append, e]
    congr 1
    omega
  refine ⟨htext, hpos, ?_, ?_, ?_⟩
  · nth_rewrite 1 [htext]
    rw [List.append_assoc, ← List.length_append, ← List.append_assoc]
    exact List.drop_left _ _
  · intro before after hsplit
    have := index_of_sub_first (lit "\r\n\r\n") r.to_string 0 _ hpos before after hsplit
    omega
  · intro after hafter
    rw [htext] at hafter
    exact (List.append_cancel_left hafter).symm

/-- C23, at a response whose body itself holds CR LF CR LF: the first
occurrence in the text is still the one that ends the head. -/
theorem to_string_terminator_witness :
    index_of_sub (lit "\r\n\r\n") (HTTPResponse.ok (lit "a\r\n\r\nb")).to_string 0
      = some (lit "HTTP/1.1 200 OK\r\nConnection: close\r\nServer: C++ HTTP Server").length ∧
    (HTTPResponse.ok (lit "a\r\n\r\nb")).to_string.drop
        ((lit "HTTP/1.1 200 OK\r\nConnection: close\r\nServer: C++ HTTP Server").length + 4)
      = lit "a\r\n\r\nb" := by
  obtain ⟨_, h2, h3, _⟩ := to_string_terminator (HTTPResponse.ok (lit "a\r\n\r\nb")) (by decide)
  have e : response_head (HTTPResponse.ok (lit "a\r\n\r\nb"))
      = lit "HTTP/1.1 200 OK\r\nConnection: close\r\nServer: C++ HTTP Server" := by decide
  rw [e] at h2 h3
  exact ⟨h2, h3⟩

/-! ### The read loop of the connection handler -/

theorem c_string_no_zero (chunk : Str) (h : ∀ c ∈ chunk, c ≠ '\x00') :
    HTTPServer.c_string chunk = chunk := by
  unfold HTTPServer.c_string
  rw [List.takeWhile_eq_self_iff]
  intro c hc
  simpa using h c hc

/-- For chunks without a zero byte, followed by a read that returns zero, the
read loop ends with the concatenation of the chunks up to and including the
first one after which the accumulated text contains CR LF CR LF, and consumes no
later result. -/
theorem read_loop_without_zero_bytes :
    ∀ (chunks : List Str) (accumulated : Str) (later : List HTTPServer.RecvResult),
      (∀ chunk ∈ chunks, chunk ≠ [] ∧ ∀ c ∈ chunk, c ≠ '\x00') →
      accumulated.length + chunks.flatten.length < size_mod →
      ∃ bytes_read : Int, 0 ≤ bytes_read ∧
        HTTPServer.read_loop
            (chunks.map HTTPServer.RecvResult.received
              ++ HTTPServer.RecvResult.received [] :: later) accumulated
          = some (bytes_read, accumulate_until_terminator chunks accumulated)
  | [], accumulated, later, _, _ => ⟨0, le_refl _, rfl⟩
  | chunk :: chunks, accumulated, later, hchunks, hlen => by
    obtain ⟨hne, hzero⟩ := hchunks chunk (List.mem_cons_self _ _)
    have hpos : (0 : Int) < (chunk.length : Int) := by
      have := List.length_pos.2 hne
      omega
    simp only [List.flatten_cons, List.length_append] at hlen
    have hfind := find_str_ne_npos (accumulated ++ chunk) (lit "\r\n\r\n") (by decide)
      (by simp only [List.length_append]; omega)
    simp only [List.map_cons, List.cons_append, HTTPServer.read_loop,
      HTTPServer.RecvResult.bytes_read, gt_iff_lt, hpos, if_true, c_string_no_zero chunk hzero,
      accumulate_until_terminator]
    by_cases hin : lit "\r\n\r\n" <:+: accumulated ++ chunk
    · rw [if_pos (hfind.2 hin), if_pos hin]
      exact ⟨_, le_of_lt hpos, rfl⟩
    · rw [if_neg (fun h => hin (hfind.1 h)), if_neg hin]
      exact read_loop_without_zero_bytes chunks (accumulated ++ chunk) later
        (fun c hc => hchunks c (List.mem_cons_of_mem _ hc))
        (by simp only [List.length_append]; omega)

/-- C21: the read loop on a first chunk that holds a zero byte before its
CR LF CR LF, followed by a second chunk. The accumulated request data is not the
first chunk, which is the text received up to the first CR LF CR LF: the bytes
of the first chunk from the zero byte on are dropped, and the second chunk is
consumed. -/
theorem read_loop_zero_byte :
    HTTPServer.read_loop
        [HTTPServer.RecvResult.received (lit "GET / HTTP/1.1\r\nX: a\x00b\r\n\r\n"),
         HTTPServer.RecvResult.received (lit "GET /health HTTP/1.1\r\n\r\n"),
         HTTPServer.RecvResult.received []] []
      = some (24, lit "GET / HTTP/1.1\r\nX: aGET /health HTTP/1.1\r\n\r\n") ∧
    accumulate_until_terminator
        [lit "GET / HTTP/1.1\r\nX: a\x00b\r\n\r\n", lit "GET /health HTTP/1.1\r\n\r\n"] []
      = lit "GET / HTTP/1.1\r\nX: a\x00b\r\n\r\n" ∧
    HTTPServer.read_loop
        [HTTPServer.RecvResult.received (lit "a\x00b\r\n\r\n"),
         HTTPServer.RecvResult.received []] []
      = some (0, lit "a") := by
  decide

/-! ### Shutdown on a signal -/

theorem run_keeps_accepting :
    ∀ (events : List ProcessEvent) (p : Process),
      p.running_ = true → p.main_thread = MainLocation.accept_connections →
      (p.run events).running_ = true ∧
      (p.run events).main_thread = MainLocation.accept_connections ∧
      (p.running = false ∨ ProcessEvent.signal ∈ events → (p.run events).running = false)
  | [], p, hflag, hmain => ⟨hflag, hmain, fun h => by
      rcases h with h | h
      · exact h
      · exact absurd h (List.not_mem_nil _)⟩
  | event :: events, p, hflag, hmain => by
    have hstep : (p.step event).running_ = true ∧
        (p.step event).main_thread = MainLocation.accept_connections ∧
        (p.running = false ∨ event = ProcessEvent.signal → (p.step event).running = false) := by
      cases event
      · exact ⟨hflag, hmain, fun _ => rfl⟩
      · have hsame : p.step ProcessEvent.main_thread = p := by
          simp only [Process.step, hmain, hflag, if_true]
        rw [hsame]
        exact ⟨hflag, hmain, fun h => by
          rcases h with h | h
          · exact h
          · exact absurd h (by decide)⟩
      · exact ⟨hflag, hmain, fun h => by
          rcases h with h | h
          · exact h
          · exact absurd h (by decide)⟩
      · exact ⟨hflag, hmain, fun h => by
          rcases h with h | h
          · exact h
          · exact absurd h (by decide)⟩
    obtain ⟨h1, h2, h3⟩ := run_keeps_accepting events (p.step event) hstep.1 hstep.2.1
    refine ⟨h1, h2, fun h => h3 ?_⟩
    rcases h with h | h
    · exact Or.inl (hstep.2.2 (Or.inl h))
    · rcases List.mem_cons.1 h with h | h
      · exact Or.inl (hstep.2.2 (Or.inr h.symm))
      · exact Or.inr h

/-- C22: from the state in which the server accepts connections, after any
sequence of signal deliveries and steps of the threads, the flag `running_` of
the server is still set and the main thread is still in the accept loop, so
`start` has not returned and the process has not exited; a delivered signal
clears only the global `running` of `main.cpp`. With `running_` cleared, two
steps of the main thread leave the accept loop and exit with code 0. -/
theorem signal_leaves_accept_loop_running (events : List ProcessEvent) :
    (Process.accepting.run events).running_ = true ∧
    (Process.accepting.run events).main_thread = MainLocation.accept_connections ∧
    (ProcessEvent.signal ∈ events → (Process.accepting.run events).running = false) ∧
    (Process.accepting.run [ProcessEvent.signal, ProcessEvent.main_thread,
        ProcessEvent.main_thread]).main_thread ≠ MainLocation.exited 0 ∧
    (Process.run { Process.accepting with running_ := false }
        [ProcessEvent.main_thread, ProcessEvent.main_thread]).main_thread
      = MainLocation.exited 0 := by
  obtain ⟨h1, h2, h3⟩ := run_keeps_accepting events Process.accepting rfl rfl
  exact ⟨h1, h2, fun h => h3 (Or.inr h), by decide, by decide⟩

end HttpServer
